import Mathlib

/-!
Verification development for the `toy-browser` rendering engine.

The definitions below are a shallow embedding of the Rust sources:
`src/css.rs` (value types, selector types, the CSS parser),
`src/dom.rs` (document nodes, class/id tokenisation),
`src/style.rs` (selector matching, the cascade, inherited lookups) and
`src/layout.rs` (box model algebra, the block width solver, box-tree
construction).  Rust `f32` quantities are modelled as exact rationals
(`ℚ`); `HashMap` style maps are modelled as functions `String → Option _`
(the source only ever inserts and queries them); Rust panics and failed
assertions are modelled with `Option` (`none` = panic).
-/

namespace ToyBrowser

/-- Unit of a CSS length, from `css.rs` (`CSSUnit`). -/
inductive CSSUnit where
  | Px
  | Em
  | Rem
deriving DecidableEq, Repr

/-- CSS value, from `css.rs` (`CSSValue`).  The colour channels are 8-bit
in the source and are modelled as `Nat`; the length magnitude is `f32`,
modelled as `ℚ`. -/
inductive CSSValue where
  | Color (r g b a : Nat)
  | Keyword (s : String)
  | Length (n : ℚ) (u : CSSUnit)
  | Unknown (s : String)
deriving DecidableEq, Repr

/-- Property/value pair, from `css.rs` (`CSSPropValue`). -/
structure CSSPropValue where
  prop : String
  value : CSSValue
deriving DecidableEq, Repr

/-- Simple selector, from `css.rs` (`CSSSimpleSelector`). -/
structure CSSSimpleSelector where
  id : List String
  class' : List String
  tag : Option String
deriving DecidableEq, Repr

/-- Specificity triple `(ids, classes, tags)`, from `css.rs`
(`type Specificity = (usize, usize, usize)`). -/
def Specificity := Nat × Nat × Nat
deriving DecidableEq, Repr

/-- Style rule, from `css.rs` (`CSSRule`). -/
structure CSSRule where
  selectors : List CSSSimpleSelector
  prop_value_set : List CSSPropValue
deriving DecidableEq, Repr

/-- Stylesheet, from `css.rs` (`Stylesheet`). -/
structure Stylesheet where
  rules : List CSSRule
deriving DecidableEq, Repr

/-- Specificity of a simple selector, from `css.rs`
(`CSSSimpleSelector::get_specificity`): `(id.len(), class.len(),
tag.iter().count())`. -/
def CSSSimpleSelector.get_specificity (s : CSSSimpleSelector) : Specificity :=
  (s.id.length, s.class'.length, s.tag.toList.length)

/-- Modelled from the spec: `CSSValue::to_px` is called throughout
`layout.rs` but its definition is not among the provided sources.  The
spec (§4.4.2) prescribes "the sum treating `auto` as `0`" and default
lengths of `0`, so a `Length` yields its magnitude and every non-length
value (keywords such as `auto`, colours, unknown tokens) yields `0`. -/
def CSSValue.to_px : CSSValue → ℚ
  | .Length n _ => n
  | _ => 0

/-- Edge sizes of a box side, from `layout.rs` (`EdgeSizes`). -/
structure EdgeSizes where
  top : ℚ
  right : ℚ
  bottom : ℚ
  left : ℚ
deriving DecidableEq, Repr

/-- Rectangle, from `layout.rs` (`RectArea`). -/
structure RectArea where
  x : ℚ
  y : ℚ
  width : ℚ
  height : ℚ
deriving DecidableEq, Repr

/-- Box model, from `layout.rs` (`Box`). -/
structure BoxModel where
  content : RectArea
  padding : EdgeSizes
  border : EdgeSizes
  margin : EdgeSizes
deriving DecidableEq, Repr

/-- Expansion of a rectangle by edge sizes, from `layout.rs`
(`RectArea::expanded_by`). -/
def RectArea.expanded_by (r : RectArea) (edge : EdgeSizes) : RectArea :=
  { x := r.x - edge.left
    y := r.y - edge.top
    width := r.width + edge.left + edge.right
    height := r.height + edge.top + edge.bottom }

/-- Padding box, from `layout.rs` (`Box::padding_box`). -/
def BoxModel.padding_box (b : BoxModel) : RectArea :=
  b.content.expanded_by b.padding

/-- Border box, from `layout.rs` (`Box::border_box`). -/
def BoxModel.border_box (b : BoxModel) : RectArea :=
  b.padding_box.expanded_by b.border

/-- Margin box, from `layout.rs` (`Box::margin_box`). -/
def BoxModel.margin_box (b : BoxModel) : RectArea :=
  b.border_box.expanded_by b.margin

/-- C6: for every layout box and every assignment of edge sizes the derived
rectangles satisfy the exact box-model algebra: `padding_box` is the content
rect expanded by the padding edges, `border_box` expands that by the border
edges, `margin_box` expands that by the margin edges; hence
`margin_box.width = margin.left + border.left + padding.left + content.width
+ padding.right + border.right + margin.right` (and analogously for height),
and each enclosing rectangle's origin is shifted left/up by exactly the
corresponding left/top edges. -/
theorem box_model_algebra (b : BoxModel) :
    b.padding_box = b.content.expanded_by b.padding ∧
    b.border_box = b.padding_box.expanded_by b.border ∧
    b.margin_box = b.border_box.expanded_by b.margin ∧
    b.margin_box.width =
      b.margin.left + b.border.left + b.padding.left + b.content.width +
      b.padding.right + b.border.right + b.margin.right ∧
    b.margin_box.height =
      b.margin.top + b.border.top + b.padding.top + b.content.height +
      b.padding.bottom + b.border.bottom + b.margin.bottom ∧
    b.padding_box.x = b.content.x - b.padding.left ∧
    b.padding_box.y = b.content.y - b.padding.top ∧
    b.border_box.x = b.padding_box.x - b.border.left ∧
    b.border_box.y = b.padding_box.y - b.border.top ∧
    b.margin_box.x = b.border_box.x - b.margin.left ∧
    b.margin_box.y = b.border_box.y - b.margin.top := by
  refine ⟨rfl, rfl, rfl, ?_, ?_, rfl, rfl, rfl, rfl, rfl, rfl⟩ <;>
    simp [BoxModel.margin_box, BoxModel.border_box, BoxModel.padding_box,
      RectArea.expanded_by] <;> ring

/-- Style map of a node (`type NodeStyle = HashMap<String, CSSValue>` in
`style.rs`).  The source only inserts into and queries these maps, so a
function model is faithful. -/
def NodeStyle := String → Option CSSValue

/-- Empty style map (`HashMap::new()`). -/
def NodeStyle.empty : NodeStyle := fun _ => none

/-- Insertion into a style map (`HashMap::insert`, which overwrites any
earlier entry for the key). -/
def NodeStyle.insert (m : NodeStyle) (k : String) (v : CSSValue) : NodeStyle :=
  fun k' => if k' = k then some v else m k'

/-- Inheritable property names, from `style.rs` (`INHERIT_ATTRS`). -/
def INHERIT_ATTRS : List String := ["color"]

/-- View of a `StyledNode` for style lookups: its own style map together
with the style maps along its parent chain (nearest ancestor first).  The
source stores a weak parent back-reference; while the tree is alive the
upgrade always succeeds, so the chain of ancestor styles is the faithful
model of `parent`/`upgrade`. -/
structure SNodeCtx where
  style : NodeStyle
  ancestors : List NodeStyle

/-- Helper for `StyledNode::get_inherit_val`: return the node's own value
when present, otherwise recurse into the parent chain; `none` when no
ancestor declares the property. -/
def getInheritValAux (name : String) : NodeStyle → List NodeStyle → Option CSSValue
  | st, anc =>
    match st name with
    | some v => some v
    | none =>
      match anc with
      | [] => none
      | a :: rest => getInheritValAux name a rest

/-- Inherited lookup, from `style.rs` (`StyledNode::get_inherit_val`). -/
def SNodeCtx.get_inherit_val (c : SNodeCtx) (name : String) : Option CSSValue :=
  getInheritValAux name c.style c.ancestors

/-- Property lookup, from `style.rs` (`StyledNode::get_val`): inheritable
properties walk the parent chain, all others consult only the node's own
style map. -/
def SNodeCtx.get_val (c : SNodeCtx) (name : String) : Option CSSValue :=
  if name ∈ INHERIT_ATTRS then c.get_inherit_val name
  else c.style name

/-- Fallback lookup, from `style.rs` (`StyledNode::look_up`): first the
primary key, then the fallback key, then the literal default. -/
def SNodeCtx.look_up (c : SNodeCtx) (key init_key : String) (init_val : CSSValue) : CSSValue :=
  (c.get_val key).getD ((c.get_val init_key).getD init_val)

/-- Display mode, from `style.rs` (`Display`). -/
inductive Display where
  | Inline
  | Block
  | None
deriving DecidableEq, Repr

/-- Display lookup, from `style.rs` (`StyledNode::get_display`): only a
`Keyword` value selects `block`/`none`; anything else is `inline`. -/
def SNodeCtx.get_display (c : SNodeCtx) : Display :=
  match c.get_val "display" with
  | some (.Keyword v) =>
    if v = "block" then .Block
    else if v = "none" then .None
    else .Inline
  | _ => .Inline

/-- Committed horizontal values produced by the block width solver
(the assignments into `box_model` at the end of
`LayoutBox::calc_block_width`). -/
structure WidthResult where
  content_width : ℚ
  padding_left : ℚ
  padding_right : ℚ
  border_left : ℚ
  border_right : ℚ
  margin_left : ℚ
  margin_right : ℚ
deriving DecidableEq, Repr

/-- Sum of the seven horizontal values treating `auto` as `0`
(`total_width` in `LayoutBox::calc_block_width`). -/
def totalWidth (ml bl pl w pr br mr : CSSValue) : ℚ :=
  ml.to_px + bl.to_px + pl.to_px + w.to_px + pr.to_px + br.to_px + mr.to_px

/-- Core of `LayoutBox::calc_block_width` (`layout.rs` lines 192–259):
the pure computation on the seven looked-up horizontal values and the
containing block's content width.  The overflow step first replaces
`auto` margins by `0`, then the case analysis on
`(width==auto, margin_left==auto, margin_right==auto)` distributes the
remaining width `rest = W - total`. -/
def solveWidth (w ml mr pl pr bl br : CSSValue) (W : ℚ) : WidthResult :=
  let auto := CSSValue.Keyword "auto"
  let zero := CSSValue.Length 0 .Px
  let total := totalWidth ml bl pl w pr br mr
  let ml1 := if w ≠ auto ∧ total > W ∧ ml = auto then zero else ml
  let mr1 := if w ≠ auto ∧ total > W ∧ mr = auto then zero else mr
  let rest := W - total
  if w = auto then
    -- case (true, _, _): width is authoritative
    let ml2 := if ml1 = auto then zero else ml1
    let mr2 := if mr1 = auto then zero else mr1
    if rest < 0 then
      { content_width := (CSSValue.Length 0 .Px).to_px
        padding_left := pl.to_px, padding_right := pr.to_px
        border_left := bl.to_px, border_right := br.to_px
        margin_left := ml2.to_px
        margin_right := (CSSValue.Length (mr2.to_px + rest) .Px).to_px }
    else
      { content_width := (CSSValue.Length rest .Px).to_px
        padding_left := pl.to_px, padding_right := pr.to_px
        border_left := bl.to_px, border_right := br.to_px
        margin_left := ml2.to_px
        margin_right := mr2.to_px }
  else if ml1 = auto then
    if mr1 = auto then
      -- case (false, true, true): split rest between the margins
      { content_width := w.to_px
        padding_left := pl.to_px, padding_right := pr.to_px
        border_left := bl.to_px, border_right := br.to_px
        margin_left := (CSSValue.Length (rest / 2) .Px).to_px
        margin_right := (CSSValue.Length (rest / 2) .Px).to_px }
    else
      -- case (false, true, false)
      { content_width := w.to_px
        padding_left := pl.to_px, padding_right := pr.to_px
        border_left := bl.to_px, border_right := br.to_px
        margin_left := (CSSValue.Length rest .Px).to_px
        margin_right := mr1.to_px }
  else if mr1 = auto then
    -- case (false, false, true)
    { content_width := w.to_px
      padding_left := pl.to_px, padding_right := pr.to_px
      border_left := bl.to_px, border_right := br.to_px
      margin_left := ml1.to_px
      margin_right := (CSSValue.Length rest .Px).to_px }
  else
    -- case (false, false, false): rest is added to margin-right
    { content_width := w.to_px
      padding_left := pl.to_px, padding_right := pr.to_px
      border_left := bl.to_px, border_right := br.to_px
      margin_left := ml1.to_px
      margin_right := (CSSValue.Length (mr1.to_px + rest) .Px).to_px }

/-- Block width computation, from `layout.rs`
(`LayoutBox::calc_block_width`): look the seven horizontal values up in
the styled node (padding/border/margin lookups are replaced by `0` for
anonymous boxes — but the `width` lookup is not) and run the solver. -/
def calc_block_width (c : SNodeCtx) (W : ℚ) (is_anonymous : Bool) : WidthResult :=
  let auto := CSSValue.Keyword "auto"
  let zero := CSSValue.Length 0 .Px
  let width := (c.get_val "width").getD auto
  let margin_left := if is_anonymous then zero else c.look_up "margin-left" "margin" zero
  let margin_right := if is_anonymous then zero else c.look_up "margin-right" "margin" zero
  let padding_left := if is_anonymous then zero else c.look_up "padding-left" "padding" zero
  let padding_right := if is_anonymous then zero else c.look_up "padding-right" "padding" zero
  let border_left := if is_anonymous then zero else c.look_up "border-left-width" "border-width" zero
  let border_right := if is_anonymous then zero else c.look_up "border-right-width" "border-width" zero
  solveWidth width margin_left margin_right padding_left padding_right border_left border_right W

theorem getInheritValAux_eq_findSome (name : String) :
    ∀ (anc : List NodeStyle) (st : NodeStyle),
      getInheritValAux name st anc = (st :: anc).findSome? (fun m => m name) := by
  intro anc
  induction anc with
  | nil =>
    intro st
    rw [getInheritValAux]
    cases h : st name <;> simp [List.findSome?, h]
  | cons a rest ih =>
    intro st
    rw [getInheritValAux, List.findSome?]
    cases st name with
    | some v => rfl
    | none => exact ih a

/-- C7: for every styled node and property name, `get_val` on an
inheritable property (the inheritable set is exactly `["color"]`) returns
the first value found on the node itself or along its parent chain —
`none` when no ancestor declares it — while on a non-inheritable
property it returns only the node's own value, never consulting
ancestors. -/
theorem get_val_resolution (c : SNodeCtx) (name : String) :
    c.get_val name =
      if name ∈ INHERIT_ATTRS then
        (c.style :: c.ancestors).findSome? (fun m => m name)
      else c.style name := by
  rw [SNodeCtx.get_val]
  split
  · exact getInheritValAux_eq_findSome name c.ancestors c.style
  · rfl

/-- Replacement of the `auto` keyword by the zero length, as performed on
margins by the overflow step of `calc_block_width`. -/
def zeroIfAuto (v : CSSValue) : CSSValue :=
  if v = CSSValue.Keyword "auto" then CSSValue.Length 0 .Px else v

theorem to_px_zeroIfAuto (v : CSSValue) : (zeroIfAuto v).to_px = v.to_px := by
  rw [zeroIfAuto]
  split
  · subst v; rfl
  · rfl

theorem zeroIfAuto_ne_auto (v : CSSValue) :
    zeroIfAuto v ≠ CSSValue.Keyword "auto" := by
  rw [zeroIfAuto]
  split
  · intro h; cases h
  · assumption

/-- C1: the block width solver resolves the seven horizontal values by
case analysis on `(width==auto, margin_left==auto, margin_right==auto)`:
(a) when the width is definite and the total exceeds `W`, the solver
behaves as if `auto` margins had first been replaced by `0`; (b) in case
`(false, true, true)` the slack `W - total` is split equally between the
margins; (c) in case `(false, false, false)` the slack is added to
margin-right (possibly negative); (d) when the width is `auto`, `auto`
margins become `0` and the width becomes the slack, or the width becomes
`0` with the slack added to margin-right when the slack is negative. -/
theorem solveWidth_cases (w ml mr pl pr bl br : CSSValue) (W : ℚ) :
    (w ≠ CSSValue.Keyword "auto" → totalWidth ml bl pl w pr br mr > W →
      solveWidth w ml mr pl pr bl br W =
        solveWidth w (zeroIfAuto ml) (zeroIfAuto mr) pl pr bl br W) ∧
    (w ≠ CSSValue.Keyword "auto" → ml = CSSValue.Keyword "auto" →
      mr = CSSValue.Keyword "auto" → totalWidth ml bl pl w pr br mr ≤ W →
      (solveWidth w ml mr pl pr bl br W).margin_left =
        (W - totalWidth ml bl pl w pr br mr) / 2 ∧
      (solveWidth w ml mr pl pr bl br W).margin_right =
        (W - totalWidth ml bl pl w pr br mr) / 2) ∧
    (w ≠ CSSValue.Keyword "auto" → ml ≠ CSSValue.Keyword "auto" →
      mr ≠ CSSValue.Keyword "auto" →
      (solveWidth w ml mr pl pr bl br W).margin_left = ml.to_px ∧
      (solveWidth w ml mr pl pr bl br W).margin_right =
        mr.to_px + (W - totalWidth ml bl pl w pr br mr)) ∧
    (w = CSSValue.Keyword "auto" →
      (solveWidth w ml mr pl pr bl br W).margin_left = (zeroIfAuto ml).to_px ∧
      (W - totalWidth ml bl pl w pr br mr < 0 →
        (solveWidth w ml mr pl pr bl br W).content_width = 0 ∧
        (solveWidth w ml mr pl pr bl br W).margin_right =
          (zeroIfAuto mr).to_px + (W - totalWidth ml bl pl w pr br mr)) ∧
      (0 ≤ W - totalWidth ml bl pl w pr br mr →
        (solveWidth w ml mr pl pr bl br W).content_width =
          W - totalWidth ml bl pl w pr br mr ∧
        (solveWidth w ml mr pl pr bl br W).margin_right =
          (zeroIfAuto mr).to_px)) := by
  refine ⟨?_, ?_, ?_, ?_⟩
  · intro hw hov
    by_cases hml : ml = CSSValue.Keyword "auto" <;>
      by_cases hmr : mr = CSSValue.Keyword "auto"
    · subst hml; subst hmr
      have ht : totalWidth (CSSValue.Length 0 CSSUnit.Px) bl pl w pr br
          (CSSValue.Length 0 CSSUnit.Px) =
          totalWidth (CSSValue.Keyword "auto") bl pl w pr br
            (CSSValue.Keyword "auto") := by
        simp [totalWidth, CSSValue.to_px]
      simp [solveWidth, zeroIfAuto, hw, hov, not_le.mpr hov, ht, CSSValue.to_px]
    · subst hml
      have ht : totalWidth (CSSValue.Length 0 CSSUnit.Px) bl pl w pr br mr =
          totalWidth (CSSValue.Keyword "auto") bl pl w pr br mr := by
        simp [totalWidth, CSSValue.to_px]
      simp [solveWidth, zeroIfAuto, hw, hov, not_le.mpr hov, ht, hmr,
        CSSValue.to_px]
    · subst hmr
      have ht : totalWidth ml bl pl w pr br (CSSValue.Length 0 CSSUnit.Px) =
          totalWidth ml bl pl w pr br (CSSValue.Keyword "auto") := by
        simp [totalWidth, CSSValue.to_px]
      simp [solveWidth, zeroIfAuto, hw, hov, not_le.mpr hov, ht, hml,
        CSSValue.to_px]
    · simp [zeroIfAuto, hml, hmr]
  · intro hw hml hmr hle
    subst hml; subst hmr
    simp [solveWidth, hw, not_lt.mpr hle, CSSValue.to_px]
  · intro hw hml hmr
    by_cases hov : totalWidth ml bl pl w pr br mr > W <;>
      simp [solveWidth, hw, hml, hmr, hov, CSSValue.to_px]
  · intro hw
    subst hw
    refine ⟨?_, fun hneg => ?_, fun hpos => ?_⟩
    · simp [solveWidth, zeroIfAuto, apply_ite WidthResult.margin_left]
    · have hr : W < totalWidth ml bl pl (CSSValue.Keyword "auto") pr br mr := by
        linarith
      simp [solveWidth, zeroIfAuto, hr, CSSValue.to_px]
    · have hr : ¬ W < totalWidth ml bl pl (CSSValue.Keyword "auto") pr br mr := by
        linarith
      simp [solveWidth, zeroIfAuto, hr, CSSValue.to_px]

/-- Witness for `solveWidth_cases`: viewport width 800 and an element with
`width: 200px; margin-left: auto; margin-right: auto;` resolves both
margins to 300. -/
theorem solveWidth_cases_witness :
    (solveWidth (CSSValue.Length 200 CSSUnit.Px) (CSSValue.Keyword "auto")
        (CSSValue.Keyword "auto") (CSSValue.Length 0 CSSUnit.Px)
        (CSSValue.Length 0 CSSUnit.Px) (CSSValue.Length 0 CSSUnit.Px)
        (CSSValue.Length 0 CSSUnit.Px) 800).margin_left = 300 ∧
    (solveWidth (CSSValue.Length 200 CSSUnit.Px) (CSSValue.Keyword "auto")
        (CSSValue.Keyword "auto") (CSSValue.Length 0 CSSUnit.Px)
        (CSSValue.Length 0 CSSUnit.Px) (CSSValue.Length 0 CSSUnit.Px)
        (CSSValue.Length 0 CSSUnit.Px) 800).margin_right = 300 := by
  have h := (solveWidth_cases (CSSValue.Length 200 CSSUnit.Px)
      (CSSValue.Keyword "auto") (CSSValue.Keyword "auto")
      (CSSValue.Length 0 CSSUnit.Px) (CSSValue.Length 0 CSSUnit.Px)
      (CSSValue.Length 0 CSSUnit.Px) (CSSValue.Length 0 CSSUnit.Px) 800).2.1
      (by simp) rfl rfl (by norm_num [totalWidth, CSSValue.to_px])
  refine ⟨?_, ?_⟩
  · rw [h.1]; norm_num [totalWidth, CSSValue.to_px]
  · rw [h.2]; norm_num [totalWidth, CSSValue.to_px]

theorem solveWidth_fixed (w ml mr pl pr bl br : CSSValue) (W : ℚ) :
    (solveWidth w ml mr pl pr bl br W).padding_left = pl.to_px ∧
    (solveWidth w ml mr pl pr bl br W).padding_right = pr.to_px ∧
    (solveWidth w ml mr pl pr bl br W).border_left = bl.to_px ∧
    (solveWidth w ml mr pl pr bl br W).border_right = br.to_px := by
  refine ⟨?_, ?_, ?_, ?_⟩
  · simp [solveWidth, apply_ite WidthResult.padding_left]
  · simp [solveWidth, apply_ite WidthResult.padding_right]
  · simp [solveWidth, apply_ite WidthResult.border_left]
  · simp [solveWidth, apply_ite WidthResult.border_right]

theorem solveWidth_content_ne (w ml mr pl pr bl br : CSSValue) (W : ℚ)
    (hw : w ≠ CSSValue.Keyword "auto") :
    (solveWidth w ml mr pl pr bl br W).content_width = w.to_px := by
  simp [solveWidth, hw, apply_ite WidthResult.content_width]

theorem solveWidth_ftt (w ml mr pl pr bl br : CSSValue) (W : ℚ)
    (hw : w ≠ CSSValue.Keyword "auto")
    (hov : ¬ totalWidth ml bl pl w pr br mr > W)
    (hml : ml = CSSValue.Keyword "auto") (hmr : mr = CSSValue.Keyword "auto") :
    (solveWidth w ml mr pl pr bl br W).margin_left =
      (W - totalWidth ml bl pl w pr br mr) / 2 ∧
    (solveWidth w ml mr pl pr bl br W).margin_right =
      (W - totalWidth ml bl pl w pr br mr) / 2 := by
  subst hml; subst hmr
  simp [solveWidth, hw, hov, CSSValue.to_px]

theorem solveWidth_ftf (w ml mr pl pr bl br : CSSValue) (W : ℚ)
    (hw : w ≠ CSSValue.Keyword "auto")
    (hov : ¬ totalWidth ml bl pl w pr br mr > W)
    (hml : ml = CSSValue.Keyword "auto") (hmr : mr ≠ CSSValue.Keyword "auto") :
    (solveWidth w ml mr pl pr bl br W).margin_left =
      W - totalWidth ml bl pl w pr br mr ∧
    (solveWidth w ml mr pl pr bl br W).margin_right = mr.to_px := by
  subst hml
  simp [solveWidth, hw, hov, hmr, CSSValue.to_px]

theorem solveWidth_fft (w ml mr pl pr bl br : CSSValue) (W : ℚ)
    (hw : w ≠ CSSValue.Keyword "auto")
    (hov : ¬ totalWidth ml bl pl w pr br mr > W)
    (hml : ml ≠ CSSValue.Keyword "auto") (hmr : mr = CSSValue.Keyword "auto") :
    (solveWidth w ml mr pl pr bl br W).margin_left = ml.to_px ∧
    (solveWidth w ml mr pl pr bl br W).margin_right =
      W - totalWidth ml bl pl w pr br mr := by
  subst hmr
  simp [solveWidth, hw, hov, hml, CSSValue.to_px]

theorem solveWidth_fff (w ml mr pl pr bl br : CSSValue) (W : ℚ)
    (hw : w ≠ CSSValue.Keyword "auto")
    (hml : ml ≠ CSSValue.Keyword "auto") (hmr : mr ≠ CSSValue.Keyword "auto") :
    (solveWidth w ml mr pl pr bl br W).margin_left = ml.to_px ∧
    (solveWidth w ml mr pl pr bl br W).margin_right =
      mr.to_px + (W - totalWidth ml bl pl w pr br mr) := by
  by_cases hov : totalWidth ml bl pl w pr br mr > W <;>
    simp [solveWidth, hw, hov, hml, hmr, CSSValue.to_px]

theorem solveWidth_wauto (w ml mr pl pr bl br : CSSValue) (W : ℚ)
    (hw : w = CSSValue.Keyword "auto") :
    (solveWidth w ml mr pl pr bl br W).margin_left = (zeroIfAuto ml).to_px ∧
    (W - totalWidth ml bl pl w pr br mr < 0 →
      (solveWidth w ml mr pl pr bl br W).content_width = 0 ∧
      (solveWidth w ml mr pl pr bl br W).margin_right =
        (zeroIfAuto mr).to_px + (W - totalWidth ml bl pl w pr br mr)) ∧
    (0 ≤ W - totalWidth ml bl pl w pr br mr →
      (solveWidth w ml mr pl pr bl br W).content_width =
        W - totalWidth ml bl pl w pr br mr ∧
      (solveWidth w ml mr pl pr bl br W).margin_right =
        (zeroIfAuto mr).to_px) := by
  subst hw
  refine ⟨?_, fun hneg => ?_, fun hpos => ?_⟩
  · simp [solveWidth, zeroIfAuto, apply_ite WidthResult.margin_left]
  · have hr : W < totalWidth ml bl pl (CSSValue.Keyword "auto") pr br mr := by
      linarith
    simp [solveWidth, zeroIfAuto, hr, CSSValue.to_px]
  · have hr : ¬ W < totalWidth ml bl pl (CSSValue.Keyword "auto") pr br mr := by
      linarith
    simp [solveWidth, zeroIfAuto, hr, CSSValue.to_px]

/-- Property of being an `auto` keyword or a non-negative length, the
shape of every horizontal value producible by the CSS parser (lengths are
parsed from digit runs and are therefore non-negative). -/
def autoOrNonnegLen (v : CSSValue) : Prop :=
  v = CSSValue.Keyword "auto" ∨ ∃ q : ℚ, 0 ≤ q ∧ ∃ u, v = CSSValue.Length q u

/-- C2: for every input to the block width solver (any combination of
`auto`/length values for the seven horizontal properties and any
containing width `W`), the committed content width is non-negative, and
the committed seven-value sum equals `W` whenever the original total
(treating `auto` as 0) did not exceed `W`. -/
theorem solveWidth_safety (w ml mr pl pr bl br : CSSValue) (W : ℚ)
    (hw : autoOrNonnegLen w) (hml : autoOrNonnegLen ml)
    (hmr : autoOrNonnegLen mr) (_hpl : autoOrNonnegLen pl)
    (_hpr : autoOrNonnegLen pr) (_hbl : autoOrNonnegLen bl)
    (_hbr : autoOrNonnegLen br) :
    0 ≤ (solveWidth w ml mr pl pr bl br W).content_width ∧
    (totalWidth ml bl pl w pr br mr ≤ W →
      (solveWidth w ml mr pl pr bl br W).margin_left +
        (solveWidth w ml mr pl pr bl br W).border_left +
        (solveWidth w ml mr pl pr bl br W).padding_left +
        (solveWidth w ml mr pl pr bl br W).content_width +
        (solveWidth w ml mr pl pr bl br W).padding_right +
        (solveWidth w ml mr pl pr bl br W).border_right +
        (solveWidth w ml mr pl pr bl br W).margin_right = W) := by
  constructor
  · rcases hw with rfl | ⟨q, hq, u, rfl⟩
    · rcases lt_or_le (W - totalWidth ml bl pl (CSSValue.Keyword "auto") pr br mr)
        0 with hneg | hpos
      · rw [((solveWidth_wauto (CSSValue.Keyword "auto") ml mr pl pr bl br W
          rfl).2.1 hneg).1]
      · rw [((solveWidth_wauto (CSSValue.Keyword "auto") ml mr pl pr bl br W
          rfl).2.2 hpos).1]
        exact hpos
    · rw [solveWidth_content_ne (CSSValue.Length q u) ml mr pl pr bl br W
        (by simp)]
      simpa [CSSValue.to_px] using hq
  · intro hle
    obtain ⟨hPL, hPR, hBL, hBR⟩ := solveWidth_fixed w ml mr pl pr bl br W
    rcases hw with rfl | ⟨q, hq, u, rfl⟩
    · have hpos : 0 ≤ W - totalWidth ml bl pl (CSSValue.Keyword "auto") pr br mr := by
        linarith
      have h := solveWidth_wauto (CSSValue.Keyword "auto") ml mr pl pr bl br W rfl
      have h2 := h.2.2 hpos
      rw [h.1, hPL, hPR, hBL, hBR, h2.1, h2.2, to_px_zeroIfAuto,
        to_px_zeroIfAuto]
      simp only [totalWidth, CSSValue.to_px]
      ring
    · have hov : ¬ totalWidth ml bl pl (CSSValue.Length q u) pr br mr > W :=
        not_lt.mpr hle
      have hne : (CSSValue.Length q u) ≠ CSSValue.Keyword "auto" := by simp
      have hcw := solveWidth_content_ne (CSSValue.Length q u) ml mr pl pr bl br
        W hne
      by_cases hml' : ml = CSSValue.Keyword "auto" <;>
        by_cases hmr' : mr = CSSValue.Keyword "auto"
      · have h := solveWidth_ftt (CSSValue.Length q u) ml mr pl pr bl br W hne
          hov hml' hmr'
        rw [hcw, hPL, hPR, hBL, hBR, h.1, h.2]
        subst hml'; subst hmr'
        simp only [totalWidth, CSSValue.to_px]
        ring
      · have h := solveWidth_ftf (CSSValue.Length q u) ml mr pl pr bl br W hne
          hov hml' hmr'
        rw [hcw, hPL, hPR, hBL, hBR, h.1, h.2]
        subst hml'
        simp only [totalWidth, CSSValue.to_px]
        ring
      · have h := solveWidth_fft (CSSValue.Length q u) ml mr pl pr bl br W hne
          hov hml' hmr'
        rw [hcw, hPL, hPR, hBL, hBR, h.1, h.2]
        subst hmr'
        simp only [totalWidth, CSSValue.to_px]
        ring
      · have h := solveWidth_fff (CSSValue.Length q u) ml mr pl pr bl br W hne
          hml' hmr'
        rw [hcw, hPL, hPR, hBL, hBR, h.1, h.2]
        simp only [totalWidth, CSSValue.to_px]
        ring

/-- Witness for `solveWidth_safety` at a concrete non-overflowing input. -/
theorem solveWidth_safety_witness :
    0 ≤ (solveWidth (CSSValue.Length 100 CSSUnit.Px)
        (CSSValue.Length 10 CSSUnit.Px) (CSSValue.Length 10 CSSUnit.Px)
        (CSSValue.Length 5 CSSUnit.Px) (CSSValue.Length 5 CSSUnit.Px)
        (CSSValue.Length 1 CSSUnit.Px) (CSSValue.Length 1 CSSUnit.Px)
        500).content_width ∧
    ((solveWidth (CSSValue.Length 100 CSSUnit.Px)
        (CSSValue.Length 10 CSSUnit.Px) (CSSValue.Length 10 CSSUnit.Px)
        (CSSValue.Length 5 CSSUnit.Px) (CSSValue.Length 5 CSSUnit.Px)
        (CSSValue.Length 1 CSSUnit.Px) (CSSValue.Length 1 CSSUnit.Px)
        500).margin_left +
      (solveWidth (CSSValue.Length 100 CSSUnit.Px)
        (CSSValue.Length 10 CSSUnit.Px) (CSSValue.Length 10 CSSUnit.Px)
        (CSSValue.Length 5 CSSUnit.Px) (CSSValue.Length 5 CSSUnit.Px)
        (CSSValue.Length 1 CSSUnit.Px) (CSSValue.Length 1 CSSUnit.Px)
        500).border_left +
      (solveWidth (CSSValue.Length 100 CSSUnit.Px)
        (CSSValue.Length 10 CSSUnit.Px) (CSSValue.Length 10 CSSUnit.Px)
        (CSSValue.Length 5 CSSUnit.Px) (CSSValue.Length 5 CSSUnit.Px)
        (CSSValue.Length 1 CSSUnit.Px) (CSSValue.Length 1 CSSUnit.Px)
        500).padding_left +
      (solveWidth (CSSValue.Length 100 CSSUnit.Px)
        (CSSValue.Length 10 CSSUnit.Px) (CSSValue.Length 10 CSSUnit.Px)
        (CSSValue.Length 5 CSSUnit.Px) (CSSValue.Length 5 CSSUnit.Px)
        (CSSValue.Length 1 CSSUnit.Px) (CSSValue.Length 1 CSSUnit.Px)
        500).content_width +
      (solveWidth (CSSValue.Length 100 CSSUnit.Px)
        (CSSValue.Length 10 CSSUnit.Px) (CSSValue.Length 10 CSSUnit.Px)
        (CSSValue.Length 5 CSSUnit.Px) (CSSValue.Length 5 CSSUnit.Px)
        (CSSValue.Length 1 CSSUnit.Px) (CSSValue.Length 1 CSSUnit.Px)
        500).padding_right +
      (solveWidth (CSSValue.Length 100 CSSUnit.Px)
        (CSSValue.Length 10 CSSUnit.Px) (CSSValue.Length 10 CSSUnit.Px)
        (CSSValue.Length 5 CSSUnit.Px) (CSSValue.Length 5 CSSUnit.Px)
        (CSSValue.Length 1 CSSUnit.Px) (CSSValue.Length 1 CSSUnit.Px)
        500).border_right +
      (solveWidth (CSSValue.Length 100 CSSUnit.Px)
        (CSSValue.Length 10 CSSUnit.Px) (CSSValue.Length 10 CSSUnit.Px)
        (CSSValue.Length 5 CSSUnit.Px) (CSSValue.Length 5 CSSUnit.Px)
        (CSSValue.Length 1 CSSUnit.Px) (CSSValue.Length 1 CSSUnit.Px)
        500).margin_right = 500) := by
  have h := solveWidth_safety (CSSValue.Length 100 CSSUnit.Px)
    (CSSValue.Length 10 CSSUnit.Px) (CSSValue.Length 10 CSSUnit.Px)
    (CSSValue.Length 5 CSSUnit.Px) (CSSValue.Length 5 CSSUnit.Px)
    (CSSValue.Length 1 CSSUnit.Px) (CSSValue.Length 1 CSSUnit.Px) 500
    (Or.inr ⟨100, by norm_num, CSSUnit.Px, rfl⟩)
    (Or.inr ⟨10, by norm_num, CSSUnit.Px, rfl⟩)
    (Or.inr ⟨10, by norm_num, CSSUnit.Px, rfl⟩)
    (Or.inr ⟨5, by norm_num, CSSUnit.Px, rfl⟩)
    (Or.inr ⟨5, by norm_num, CSSUnit.Px, rfl⟩)
    (Or.inr ⟨1, by norm_num, CSSUnit.Px, rfl⟩)
    (Or.inr ⟨1, by norm_num, CSSUnit.Px, rfl⟩)
  exact ⟨h.1, h.2 (by norm_num [totalWidth, CSSValue.to_px])⟩

/-- Styled-node context of an anonymous block wrapper whose inherited
styled node declares `width: 200px` and nothing else. -/
def anonCtx : SNodeCtx :=
  ⟨fun k => if k = "width" then some (CSSValue.Length 200 CSSUnit.Px) else none, []⟩

/-- Counterexample for C5: against a containing width of 800, the width
solver run for an anonymous wrapper whose inherited styled node declares
`width: 200px` commits content width 200 — not the containing block's 800
— and margin-right 600, so the wrapper neither ignores the inherited
`width` declaration nor keeps all margin edges at 0. -/
theorem anon_width_counterexample :
    (calc_block_width anonCtx 800 true).content_width = 200 ∧
    (calc_block_width anonCtx 800 true).content_width ≠ 800 ∧
    (calc_block_width anonCtx 800 true).margin_right = 600 ∧
    (calc_block_width anonCtx 800 true).margin_right ≠ 0 := by
  have hval : calc_block_width anonCtx 800 true =
      solveWidth (CSSValue.Length 200 CSSUnit.Px) (CSSValue.Length 0 CSSUnit.Px)
        (CSSValue.Length 0 CSSUnit.Px) (CSSValue.Length 0 CSSUnit.Px)
        (CSSValue.Length 0 CSSUnit.Px) (CSSValue.Length 0 CSSUnit.Px)
        (CSSValue.Length 0 CSSUnit.Px) 800 := by
    simp [calc_block_width, anonCtx, SNodeCtx.get_val, SNodeCtx.get_inherit_val,
      getInheritValAux, INHERIT_ATTRS]
  have hcw := solveWidth_content_ne (CSSValue.Length 200 CSSUnit.Px)
    (CSSValue.Length 0 CSSUnit.Px) (CSSValue.Length 0 CSSUnit.Px)
    (CSSValue.Length 0 CSSUnit.Px) (CSSValue.Length 0 CSSUnit.Px)
    (CSSValue.Length 0 CSSUnit.Px) (CSSValue.Length 0 CSSUnit.Px) 800 (by simp)
  have hmr := solveWidth_fff (CSSValue.Length 200 CSSUnit.Px)
    (CSSValue.Length 0 CSSUnit.Px) (CSSValue.Length 0 CSSUnit.Px)
    (CSSValue.Length 0 CSSUnit.Px) (CSSValue.Length 0 CSSUnit.Px)
    (CSSValue.Length 0 CSSUnit.Px) (CSSValue.Length 0 CSSUnit.Px) 800
    (by simp) (by simp) (by simp)
  refine ⟨?_, ?_, ?_, ?_⟩
  · rw [hval, hcw]; norm_num [CSSValue.to_px]
  · rw [hval, hcw]; norm_num [CSSValue.to_px]
  · rw [hval, hmr.2]; norm_num [totalWidth, CSSValue.to_px]
  · rw [hval, hmr.2]; norm_num [totalWidth, CSSValue.to_px]

/-- C5 (amended): for an anonymous block wrapper the solver replaces the
padding, border and margin lookups by length `0` (margins become the zero
length, not `auto`), while the `width` lookup is still taken from the
inherited styled node; consequently padding, border and margin-left edges
are always 0, and when the inherited width resolves to `auto` (no
declaration) and `0 ≤ W` the content width fills the containing block
with margin-right 0 as well. -/
theorem anon_width_amended (c : SNodeCtx) (W : ℚ) :
    (calc_block_width c W true).padding_left = 0 ∧
    (calc_block_width c W true).padding_right = 0 ∧
    (calc_block_width c W true).border_left = 0 ∧
    (calc_block_width c W true).border_right = 0 ∧
    (calc_block_width c W true).margin_left = 0 ∧
    ((c.get_val "width").getD (CSSValue.Keyword "auto") =
        CSSValue.Keyword "auto" → 0 ≤ W →
      (calc_block_width c W true).content_width = W ∧
      (calc_block_width c W true).margin_right = 0) := by
  refine ⟨?_, ?_, ?_, ?_, ?_, ?_⟩
  · simp [calc_block_width, solveWidth, apply_ite WidthResult.padding_left,
      CSSValue.to_px]
  · simp [calc_block_width, solveWidth, apply_ite WidthResult.padding_right,
      CSSValue.to_px]
  · simp [calc_block_width, solveWidth, apply_ite WidthResult.border_left,
      CSSValue.to_px]
  · simp [calc_block_width, solveWidth, apply_ite WidthResult.border_right,
      CSSValue.to_px]
  · simp [calc_block_width, solveWidth, apply_ite WidthResult.margin_left,
      CSSValue.to_px]
  · intro hv hW
    have hr : ¬ W < totalWidth (CSSValue.Length 0 CSSUnit.Px)
        (CSSValue.Length 0 CSSUnit.Px) (CSSValue.Length 0 CSSUnit.Px)
        ((c.get_val "width").getD (CSSValue.Keyword "auto"))
        (CSSValue.Length 0 CSSUnit.Px) (CSSValue.Length 0 CSSUnit.Px)
        (CSSValue.Length 0 CSSUnit.Px) := by
      rw [hv]
      simp [totalWidth, CSSValue.to_px]
      linarith
    constructor <;>
      simp [calc_block_width, solveWidth, hv, hr, totalWidth, CSSValue.to_px,
        not_lt.mpr hW]

/-- Witness for `anon_width_amended` at the empty style map and width 800. -/
theorem anon_width_amended_witness :
    (calc_block_width ⟨fun _ => none, []⟩ 800 true).margin_left = 0 ∧
    (calc_block_width ⟨fun _ => none, []⟩ 800 true).content_width = 800 ∧
    (calc_block_width ⟨fun _ => none, []⟩ 800 true).margin_right = 0 := by
  have h := anon_width_amended ⟨fun _ => none, []⟩ 800
  have h2 := h.2.2.2.2.2 (by
    simp [SNodeCtx.get_val, SNodeCtx.get_inherit_val, getInheritValAux,
      INHERIT_ATTRS]) (by norm_num)
  exact ⟨h.2.2.2.2.1, h2.1, h2.2⟩

/-- Accumulator-based core of `str::split(sep)`. -/
def splitAux (sep : Char) : List Char → List Char → List (List Char)
  | [], acc => [acc.reverse]
  | c :: cs, acc =>
    if c = sep then acc.reverse :: splitAux sep cs []
    else splitAux sep cs (c :: acc)

/-- Model of Rust `str::split(sep)`: splitting an empty string yields one
empty token, and adjacent separators yield empty tokens. -/
def splitOn (sep : Char) (s : String) : List String :=
  (splitAux sep s.data []).map (fun l => String.mk l)

/-- Element data, from `dom.rs` (`ElementData`).  The attribute map
(`AttrMap = HashMap<String, String>`) is modelled as a function, the way
the source queries it. -/
structure ElementData where
  tag_name : String
  attrs : String → Option String

/-- Id tokens of an element, from `dom.rs` (`ElementData::ids`): the `id`
attribute split on single spaces; an absent attribute yields the empty
set.  The source's `HashSet` is modelled as the token list (only
membership is ever consulted). -/
def ElementData.ids (e : ElementData) : List String :=
  match e.attrs "id" with
  | some val => splitOn ' ' val
  | none => []

/-- Class tokens of an element, from `dom.rs` (`ElementData::classes`). -/
def ElementData.classes (e : ElementData) : List String :=
  match e.attrs "class" with
  | some val => splitOn ' ' val
  | none => []

/-- Simple-selector matching, from `style.rs` (`match_selector`): the tag
must be absent or equal, every class named by the selector must be among
the element's class tokens, and every id named by the selector must be
among the element's id tokens. -/
def match_selector (e : ElementData) (s : CSSSimpleSelector) : Bool :=
  if s.tag.any fun name => e.tag_name != name then false
  else if s.class'.any fun c => !(e.classes.contains c) then false
  else if s.id.any fun i => !(e.ids.contains i) then false
  else true

/-- Rule matching, from `style.rs` (`match_rule`): the first selector in
the rule's list that matches the element supplies the specificity; a rule
yields at most one matched pair. -/
def match_rule (e : ElementData) (r : CSSRule) : Option (Specificity × CSSRule) :=
  (r.selectors.find? (fun sel => match_selector e sel)).map
    (fun sel => (sel.get_specificity, r))

/-- Stylesheet matching, from `style.rs` (`match_rules`). -/
def match_rules (e : ElementData) (sheet : Stylesheet) :
    List (Specificity × CSSRule) :=
  sheet.rules.filterMap (fun r => match_rule e r)

/-- C9: for every element and rule, the matched pair contributed to the
cascade carries the specificity of the first selector in the rule's
selector-list order that matches the element — regardless of the
specificities of later matching selectors — and a stylesheet contributes
at most one pair per rule. -/
theorem match_rule_first_selector (e : ElementData) (r : CSSRule)
    (pre : List CSSSimpleSelector) (sel : CSSSimpleSelector)
    (post : List CSSSimpleSelector)
    (hsel : r.selectors = pre ++ sel :: post)
    (hpre : ∀ s' ∈ pre, match_selector e s' = false)
    (hmatch : match_selector e sel = true) :
    match_rule e r = some (sel.get_specificity, r) ∧
    ∀ sheet : Stylesheet, (match_rules e sheet).length ≤ sheet.rules.length := by
  constructor
  · rw [match_rule, hsel]
    have hfind : ∀ (l : List CSSSimpleSelector),
        (∀ s' ∈ l, match_selector e s' = false) →
        (l ++ sel :: post).find? (fun s' => match_selector e s') = some sel := by
      intro l
      induction l with
      | nil => intro _; simp [List.find?, hmatch]
      | cons a t ih =>
        intro h
        rw [List.cons_append, List.find?]
        rw [h a (List.mem_cons_self a t)]
        exact ih (fun s' hs' => h s' (List.mem_cons_of_mem a hs'))
    rw [hfind pre hpre]
    rfl
  · intro sheet
    exact List.length_filterMap_le _ _

/-- Element `<p id="x">` used to witness C9. -/
def elem9 : ElementData :=
  ⟨"p", fun k => if k = "id" then some "x" else none⟩

/-- Rule `p, #x { }` used to witness C9: the tag selector comes first and
has the lower specificity. -/
def rule9 : CSSRule :=
  ⟨[⟨[], [], some "p"⟩, ⟨["x"], [], none⟩], []⟩

/-- Witness for `match_rule_first_selector`: both selectors of `rule9`
match `elem9`, yet the contributed specificity is the first selector's
`(0,0,1)`, not the maximal `(1,0,0)` of the second. -/
theorem match_rule_first_selector_witness :
    match_rule elem9 rule9 =
      some (((0, 0, 1) : Specificity), rule9) ∧
    match_selector elem9 ⟨["x"], [], none⟩ = true ∧
    CSSSimpleSelector.get_specificity ⟨["x"], [], none⟩ =
      ((1, 0, 0) : Specificity) ∧
    ((0, 0, 1) : Specificity) ≠ ((1, 0, 0) : Specificity) := by
  refine ⟨?_, by decide, by decide, by decide⟩
  have h := (match_rule_first_selector elem9 rule9 [] ⟨[], [], some "p"⟩
    [⟨["x"], [], none⟩] rfl (by intro s' hs'; cases hs') (by decide)).1
  exact h

/-- Element `<div class="a b">` used in C10. -/
def elemAB : ElementData :=
  ⟨"div", fun k => if k = "class" then some "a b" else none⟩

/-- Element `<div id="x y">` used in C10. -/
def elemXY : ElementData :=
  ⟨"div", fun k => if k = "id" then some "x y" else none⟩

/-- Element `<div>` without class or id attributes, used in C10. -/
def elemBare : ElementData := ⟨"div", fun _ => none⟩

/-- C10: class and id attribute values are tokenised by splitting on
single spaces, a selector's class (resp. id) name matches iff it equals
one of those tokens, an element with `class="a b"` matches both `.a` and
`.b`, an element with `id="x y"` matches both `#x` and `#y`, and an
absent attribute yields the empty token set so any selector naming a
class or id fails to match. -/
theorem selector_token_matching :
    (∀ (e : ElementData) (s : CSSSimpleSelector),
      match_selector e s = true ↔
        ((∀ t, s.tag = some t → e.tag_name = t) ∧
         (∀ c ∈ s.class', c ∈ e.classes) ∧
         (∀ i ∈ s.id, i ∈ e.ids))) ∧
    (∀ e : ElementData, e.attrs "class" = none → e.classes = []) ∧
    (∀ e : ElementData, e.attrs "id" = none → e.ids = []) ∧
    elemAB.classes = ["a", "b"] ∧
    match_selector elemAB ⟨[], ["a"], none⟩ = true ∧
    match_selector elemAB ⟨[], ["b"], none⟩ = true ∧
    elemXY.ids = ["x", "y"] ∧
    match_selector elemXY ⟨["x"], [], none⟩ = true ∧
    match_selector elemXY ⟨["y"], [], none⟩ = true ∧
    match_selector elemBare ⟨[], ["a"], none⟩ = false ∧
    match_selector elemBare ⟨["x"], [], none⟩ = false := by
  refine ⟨?_, ?_, ?_, by decide, by decide, by decide, by decide, by decide,
    by decide, by decide, by decide⟩
  · intro e s
    have hb : match_selector e s =
        (!(s.tag.any fun name => e.tag_name != name) &&
          (!(s.class'.any fun c => !(e.classes.contains c)) &&
            !(s.id.any fun i => !(e.ids.contains i)))) := by
      cases htag : (s.tag.any fun name => e.tag_name != name) <;>
        cases hcls : (s.class'.any fun c => !(e.classes.contains c)) <;>
        cases hid : (s.id.any fun i => !(e.ids.contains i)) <;>
        simp only [match_selector, htag, hcls, hid] <;> rfl
    rw [hb]
    cases s.tag <;> simp [List.contains]
  · intro e h
    rw [ElementData.classes, h]
  · intro e h
    rw [ElementData.ids, h]

/-- Witness for `selector_token_matching`: the token characterisation
applied at `<div class="a b">` and the selector `.a.b` (both class names
present). -/
theorem selector_token_matching_witness :
    match_selector elemAB ⟨[], ["a", "b"], none⟩ = true := by
  refine (selector_token_matching.1 elemAB ⟨[], ["a", "b"], none⟩).mpr
    ⟨?_, ?_, ?_⟩
  · intro t ht
    cases ht
  · decide
  · intro i hi
    cases hi

/-- Model of `Parser::consume_while` from `css.rs`: consume characters
while the test holds, returning the consumed run and the remaining input.
The source tracks a position index into the input string; the remaining
character list is the equivalent state. -/
def consumeWhileP (test : Char → Bool) : List Char → List Char × List Char
  | [] => ([], [])
  | c :: cs =>
    if test c then
      let r := consumeWhileP test cs
      (c :: r.1, r.2)
    else ([], c :: cs)

/-- Identifier characters accepted by `Parser::parse_identifier`. -/
def isIdentChar (c : Char) : Bool :=
  (('a' ≤ c ∧ c ≤ 'z') ∨ ('A' ≤ c ∧ c ≤ 'Z') ∨ ('0' ≤ c ∧ c ≤ '9') ∨ c = '-' :
    Prop)

/-- Model of `Parser::parse_identifier`: panics (`none`) at end of input
or when the next character is a digit or `-`; otherwise consumes the
identifier run. -/
def parse_identifier : List Char → Option (List Char × List Char)
  | [] => none
  | c :: cs =>
    if ('0' ≤ c ∧ c ≤ '9') ∨ c = '-' then none
    else some (consumeWhileP isIdentChar (c :: cs))

/-- Hexadecimal digit value. -/
def hexDigitVal (c : Char) : Option Nat :=
  if '0' ≤ c ∧ c ≤ '9' then some (c.toNat - '0'.toNat)
  else if 'a' ≤ c ∧ c ≤ 'f' then some (c.toNat - 'a'.toNat + 10)
  else if 'A' ≤ c ∧ c ≤ 'F' then some (c.toNat - 'A'.toNat + 10)
  else none

/-- Model of `parse_single_channel` from `css.rs`:
`u8::from_str_radix(val, 16).unwrap_or(0)` — an empty string, a
non-hex character or a value exceeding `u8` yields `0`. -/
def parse_single_channel (val : List Char) : Nat :=
  match val.foldl
      (fun acc c => acc.bind fun n => (hexDigitVal c).map fun d => n * 16 + d)
      (some 0) with
  | some n => if n < 256 ∧ val ≠ [] then n else 0
  | none => 0

/-- Hex-digit test used by `Parser::parse_hex_color`. -/
def isHexChar (c : Char) : Bool :=
  (('0' ≤ c ∧ c ≤ '9') ∨ ('a' ≤ c ∧ c ≤ 'f') ∨ ('A' ≤ c ∧ c ≤ 'F') : Prop)

/-- Model of `Parser::parse_hex_color` (called after the `#` has been
consumed): consume the hex-digit run, assert exactly six digits
(`assert!` failure = `none`), and build an opaque colour from the three
channel pairs with alpha 255. -/
def parse_hex_color (cs : List Char) : Option (CSSValue × List Char) :=
  let r := consumeWhileP isHexChar cs
  if r.1.length = 6 then
    some (CSSValue.Color
      (parse_single_channel (r.1.take 2))
      (parse_single_channel ((r.1.drop 2).take 2))
      (parse_single_channel (r.1.drop 4)) 255, r.2)
  else none

/-- Digit-string to number conversion for `parseF32`. -/
def natOfDigits (l : List Char) : Nat :=
  l.foldl (fun acc c => acc * 10 + (c.toNat - '0'.toNat)) 0

/-- Model of Rust `str::parse::<f32>().unwrap_or(0.0)` restricted to the
digit/dot strings produced by `parse_value_length`: an integer part, an
optional fractional part, `0` on any malformed input. -/
def parseF32 (s : List Char) : ℚ :=
  match splitAux '.' s [] with
  | [intp] =>
    if intp ≠ [] ∧ intp.all (fun c => c.isDigit) then (natOfDigits intp : ℚ)
    else 0
  | [intp, frac] =>
    if (intp ≠ [] ∨ frac ≠ []) ∧ intp.all (fun c => c.isDigit) ∧
        frac.all (fun c => c.isDigit) then
      (natOfDigits intp : ℚ) + (natOfDigits frac : ℚ) / ((10 : ℚ) ^ frac.length)
    else 0
  | _ => 0

/-- Model of `Parser::parse_value_length`: consume the digit/dot run,
then consume the unit suffix up to `;`; unknown suffixes default to
pixels. -/
def parse_value_length (cs : List Char) : CSSValue × List Char :=
  let num := consumeWhileP (fun c => c.isDigit || c == '.') cs
  let unit := consumeWhileP (fun c => c != ';') num.2
  let css_unit :=
    if unit.1 = "px".data then CSSUnit.Px
    else if unit.1 = "em".data then CSSUnit.Em
    else if unit.1 = "rem".data then CSSUnit.Rem
    else CSSUnit.Px
  (CSSValue.Length (parseF32 num.1) css_unit, unit.2)

/-- Model of `Parser::parse_value`: dispatch on the next character —
digit for a length, `#` for a hex colour, anything else becomes an
`Unknown` token consumed up to `;`.  `none` models the panic of
`next_char` at end of input. -/
def parse_value : List Char → Option (CSSValue × List Char)
  | [] => none
  | c :: cs =>
    if '0' ≤ c ∧ c ≤ '9' then some (parse_value_length (c :: cs))
    else if c = '#' then parse_hex_color cs
    else
      let r := consumeWhileP (fun x => x != ';') (c :: cs)
      some (CSSValue.Unknown (String.mk r.1), r.2)

/-- Model of `Parser::parse_prop_value`: identifier, `:` (asserted),
whitespace, value, `;` (asserted).  A missing `:` or `;` is an `assert!`
failure, modelled as `none`. -/
def parse_prop_value (cs : List Char) : Option (CSSPropValue × List Char) := do
  let (ident, r1) ← parse_identifier cs
  match r1 with
  | ':' :: r2 =>
    let r3 := (consumeWhileP (fun c => c.isWhitespace) r2).2
    let (v, r4) ← parse_value r3
    match r4 with
    | ';' :: r5 => some (⟨String.mk ident, v⟩, r5)
    | _ => none
  | _ => none

/-- Fuelled loop of `Parser::parse_prop_value_set`: skip whitespace, stop
at `}`, otherwise parse one declaration and continue.  The fuel only
bounds the recursion; the caller supplies more fuel than there are input
characters, so exhaustion never occurs on the source's terminating
inputs. -/
def parse_prop_value_loop : Nat → List Char → List CSSPropValue →
    Option (List CSSPropValue)
  | 0, _, _ => none
  | fuel + 1, cs, acc =>
    let cs1 := (consumeWhileP (fun c => c.isWhitespace) cs).2
    match cs1 with
    | [] => none
    | c :: _ =>
      if c = '}' then some acc
      else do
        let (pv, rest) ← parse_prop_value cs1
        parse_prop_value_loop fuel rest (acc ++ [pv])

/-- Model of `Parser::parse_prop_value_set`: assert `{`, loop over
declarations until `}`. -/
def parse_prop_value_set (cs : List Char) : Option (List CSSPropValue) :=
  match cs with
  | '{' :: r => parse_prop_value_loop (r.length + 1) r []
  | _ => none

/-- Inline-style parsing, from `css.rs` (`parse_inline_style`): wrap the
fragment in braces and parse it as a declaration block. -/
def parse_inline_style (style : String) : Option (List CSSPropValue) :=
  parse_prop_value_set ('{' :: (style.data ++ ['}']))

/-- Node type, from `dom.rs` (`NodeType`). -/
inductive NodeType where
  | text (content : String)
  | element (data : ElementData)
  | comment (content : String)
  | styleNode (tag : String) (attrs : String → Option String) (inner : String)

/-- Document node, from `dom.rs` (`Node`): a node type together with an
ordered child list. -/
inductive Node where
  | mk (node_type : NodeType) (children : List Node)

/-- Node type accessor. -/
def Node.node_type : Node → NodeType
  | .mk t _ => t

/-- Children accessor. -/
def Node.children : Node → List Node
  | .mk _ c => c

/-- Lexicographic order on specificity triples, as a Boolean: the model
of `Specificity::cmp` (Rust derives lexicographic `Ord` on tuples) used
by the stable `sort_by` in `specified_values`. -/
def specLe (a b : Specificity) : Bool :=
  decide (a.1 < b.1 ∨ (a.1 = b.1 ∧ (a.2.1 < b.2.1 ∨
    (a.2.1 = b.2.1 ∧ a.2.2 ≤ b.2.2))))

/-- Stable ascending sort of matched rules by specificity, the model of
`rules.sort_by(|&(a, _), &(b, _)| a.cmp(&b))` — Rust's `sort_by` is a
stable merge sort, as is `List.mergeSort`. -/
def sortRules (l : List (Specificity × CSSRule)) : List (Specificity × CSSRule) :=
  l.mergeSort (fun x y => specLe x.1 y.1)

/-- Insertion of a declaration list into a style map, in order (later
declarations overwrite earlier ones), from the inner loops of
`specified_values`. -/
def insertDecls (st : NodeStyle) (ds : List CSSPropValue) : NodeStyle :=
  ds.foldl (fun st pv => st.insert pv.prop pv.value) st

/-- Insertion of the declarations of a list of matched rules, in order,
from the rule loop of `specified_values`. -/
def applyRules (st : NodeStyle) (rs : List (Specificity × CSSRule)) : NodeStyle :=
  rs.foldl (fun st pr => insertDecls st pr.2.prop_value_set) st

/-- Collection of matched pairs across all stylesheets in order, from the
stylesheet loop of `specified_values`. -/
def collectRules (e : ElementData) (sheets : List Stylesheet) :
    List (Specificity × CSSRule) :=
  sheets.foldl (fun acc sheet => acc ++ match_rules e sheet) []

/-- Cascaded style resolution for one element, from `style.rs`
(`specified_values`): collect matched `(specificity, rule)` pairs across
all stylesheets, stable-sort ascending by specificity, insert every
declaration in that order, then overlay the parsed inline `style`
attribute last.  `none` models the panic of the inline-style parser. -/
def specified_values (e : ElementData) (sheets : List Stylesheet) :
    Option NodeStyle :=
  let style := applyRules NodeStyle.empty (sortRules (collectRules e sheets))
  match e.attrs "style" with
  | some styleContent => (parse_inline_style styleContent).map (insertDecls style)
  | none => some style

/-- Styled-tree node, from `style.rs` (`StyledNode`): the underlying
document node's type, the lookup view (own style plus ancestor styles),
and the styled children. -/
inductive STree where
  | mk (node_type : NodeType) (ctx : SNodeCtx) (children : List STree)

/-- Context accessor. -/
def STree.ctx : STree → SNodeCtx
  | .mk _ c _ => c

/-- Children accessor. -/
def STree.children : STree → List STree
  | .mk _ _ cs => cs

/-- Node-type accessor. -/
def STree.node_type : STree → NodeType
  | .mk t _ _ => t

mutual

/-- Styled-tree construction, from `style.rs` (`style_tree`): elements
get their cascaded style, text and other nodes an empty map; children are
built with this node's style prepended to the ancestor chain (the model
of the weak parent back-reference); `<head>` elements are skipped. -/
def style_tree (n : Node) (sheets : List Stylesheet) (anc : List NodeStyle) :
    Option STree :=
  match n with
  | .mk nt cs =>
    match nt with
    | .element e => do
      let style ← specified_values e sheets
      let children ← style_tree_children cs sheets (style :: anc)
      some (.mk nt ⟨style, anc⟩ children)
    | _ => do
      let children ← style_tree_children cs sheets (NodeStyle.empty :: anc)
      some (.mk nt ⟨NodeStyle.empty, anc⟩ children)

/-- Child traversal of `style_tree`, skipping `<head>` subtrees. -/
def style_tree_children (l : List Node) (sheets : List Stylesheet)
    (anc : List NodeStyle) : Option (List STree) :=
  match l with
  | [] => some []
  | c :: rest =>
    match c with
    | .mk (.element e) _ =>
      if e.tag_name = "head" then style_tree_children rest sheets anc
      else do
        let t ← style_tree c sheets anc
        let ts ← style_tree_children rest sheets anc
        some (t :: ts)
    | _ => do
      let t ← style_tree c sheets anc
      let ts ← style_tree_children rest sheets anc
      some (t :: ts)

end

/-- Counterexample for C8: parsing the inline fragment `color:#112233`
does not yield a declaration list at all — `parse_prop_value` asserts a
terminating `;` after each declaration, and the assertion fails (a Rust
panic), so the claimed single-declaration result is wrong. -/
theorem inline_style_counterexample :
    parse_inline_style "color:#112233" = none ∧
    parse_inline_style "color:#112233" ≠
      some [⟨"color", CSSValue.Color 17 34 51 255⟩] := by
  refine ⟨by decide, by decide⟩

/-- Document `<div style="color:#112233;"><span>t</span></div>` (note the
terminating semicolon required by the declaration parser). -/
def divNode : Node :=
  .mk (.element ⟨"div",
        fun k => if k = "style" then some "color:#112233;" else none⟩)
    [.mk (.element ⟨"span", fun _ => none⟩) [.mk (.text "t") []]]

/-- C8 (amended): parsing the inline style fragment `color:#112233;`
(the parser requires every declaration to end in `;`; without it the
parse panics) yields the single declaration `(color, Color(17,34,51,255))`
overlaid on the element's style map, so for
`<div style="color:#112233;"><span>t</span></div>` with no rule for
`span`, the span's resolved `color` via inheritance is `(17,34,51,255)`. -/
theorem inline_style_inheritance :
    parse_inline_style "color:#112233;" =
      some [⟨"color", CSSValue.Color 17 34 51 255⟩] ∧
    ((style_tree divNode [] []).bind fun t =>
        (t.children.head?).map fun sp => sp.ctx.get_val "color") =
      some (some (CSSValue.Color 17 34 51 255)) := by
  have hparse : parse_inline_style "color:#112233;" =
      some [⟨"color", CSSValue.Color 17 34 51 255⟩] := by decide
  refine ⟨hparse, ?_⟩
  have hsort : ∀ e : ElementData, sortRules (collectRules e []) = [] := by
    intro e
    simp [sortRules, collectRules]
  have hdivStyle : specified_values
      ⟨"div", fun k => if k = "style" then some "color:#112233;" else none⟩
      [] = some (insertDecls (applyRules NodeStyle.empty [])
        [⟨"color", CSSValue.Color 17 34 51 255⟩]) := by
    simp [specified_values, hsort, hparse]
  have hspanStyle : specified_values ⟨"span", fun _ => none⟩ [] =
      some (applyRules NodeStyle.empty []) := by
    simp [specified_values, hsort]
  simp only [divNode, style_tree, style_tree_children, hdivStyle, hspanStyle,
    Option.bind_some, Option.some_bind, Option.bind, Option.map]
  simp [STree.children, STree.ctx, SNodeCtx.get_val, INHERIT_ATTRS,
    SNodeCtx.get_inherit_val, getInheritValAux, applyRules, insertDecls,
    NodeStyle.empty, NodeStyle.insert]

/-- Last `some` produced by `f` along a list, scanning left to right —
the abstract shape of "later insertions overwrite earlier ones". -/
def lastSome {α : Type} (f : α → Option CSSValue) (l : List α) : Option CSSValue :=
  l.foldl (fun acc x => match f x with | some v => some v | none => acc) none

/-- Value a declaration list assigns to property `p` (its last matching
declaration), the effect of inserting the list into a map in order. -/
def declVal (p : String) (ds : List CSSPropValue) : Option CSSValue :=
  lastSome (fun pv => if pv.prop = p then some pv.value else none) ds

/-- Value a rule assigns to property `p`. -/
def ruleVal (p : String) (r : CSSRule) : Option CSSValue :=
  declVal p r.prop_value_set

/-- Value the ordered matched-rule list assigns to property `p`. -/
def lastRuleVal (p : String) (rs : List (Specificity × CSSRule)) :
    Option CSSValue :=
  lastSome (fun pr => ruleVal p pr.2) rs

theorem lastSome_init {α : Type} (f : α → Option CSSValue) :
    ∀ (l : List α) (init : Option CSSValue),
      l.foldl (fun acc x => match f x with | some v => some v | none => acc)
        init =
      match lastSome f l with
      | some v => some v
      | none => init := by
  intro l
  induction l with
  | nil => intro init; simp [lastSome]
  | cons a t ih =>
    intro init
    rw [List.foldl_cons, ih]
    have h2 : lastSome f (a :: t) =
        match lastSome f t with
        | some v => some v
        | none => match f a with | some v => some v | none => none := by
      rw [lastSome, List.foldl_cons, ih]
    rw [h2]
    cases lastSome f t <;> cases h : f a <;> simp [h]

theorem lastSome_cons {α : Type} (f : α → Option CSSValue) (a : α)
    (t : List α) :
    lastSome f (a :: t) =
      match lastSome f t with
      | some v => some v
      | none => f a := by
  rw [lastSome, List.foldl_cons, lastSome_init]
  cases lastSome f t <;> cases h : f a <;> simp [h]

theorem lastSome_snoc {α : Type} (f : α → Option CSSValue) (l : List α)
    (x : α) :
    lastSome f (l ++ [x]) =
      match f x with
      | some v => some v
      | none => lastSome f l := by
  rw [lastSome, List.foldl_append]
  rfl

theorem lastSome_filter {α : Type} (f : α → Option CSSValue) (l : List α) :
    lastSome f l =
      match (l.filter fun x => (f x).isSome).getLast? with
      | some x => f x
      | none => none := by
  induction l using List.reverseRecOn with
  | nil => rfl
  | append_singleton l x ih =>
    rw [lastSome_snoc]
    cases h : f x with
    | some v =>
      have hf : (l ++ [x]).filter (fun y => (f y).isSome) =
          l.filter (fun y => (f y).isSome) ++ [x] := by
        simp [List.filter_append, h]
      rw [hf, List.getLast?_concat]
      simp [h]
    | none =>
      have hf : (l ++ [x]).filter (fun y => (f y).isSome) =
          l.filter (fun y => (f y).isSome) := by
        simp [List.filter_append, h]
      rw [hf, ih]

theorem insertDecls_apply (ds : List CSSPropValue) (st : NodeStyle)
    (p : String) :
    insertDecls st ds p =
      match declVal p ds with
      | some v => some v
      | none => st p := by
  induction ds generalizing st with
  | nil => simp [insertDecls, declVal, lastSome]
  | cons a t ih =>
    have h1 : insertDecls st (a :: t) =
        insertDecls (st.insert a.prop a.value) t := rfl
    rw [h1, ih]
    simp only [declVal, lastSome_cons]
    cases lastSome (fun pv => if pv.prop = p then some pv.value else none) t with
    | some v => rfl
    | none =>
      by_cases hap : a.prop = p
      · simp only [if_pos hap]
        show NodeStyle.insert st a.prop a.value p = some a.value
        rw [NodeStyle.insert, if_pos hap.symm]
      · simp only [if_neg hap]
        show NodeStyle.insert st a.prop a.value p = st p
        rw [NodeStyle.insert, if_neg (fun h => hap h.symm)]

theorem applyRules_apply (rs : List (Specificity × CSSRule)) (st : NodeStyle)
    (p : String) :
    applyRules st rs p =
      match lastRuleVal p rs with
      | some v => some v
      | none => st p := by
  induction rs generalizing st with
  | nil => simp [applyRules, lastRuleVal, lastSome]
  | cons a t ih =>
    have h1 : applyRules st (a :: t) =
        applyRules (insertDecls st a.2.prop_value_set) t := rfl
    rw [h1, ih]
    simp only [lastRuleVal, lastSome_cons]
    cases lastSome (fun pr => ruleVal p pr.2) t with
    | some v => rfl
    | none =>
      rw [insertDecls_apply]
      rfl

theorem specLe_trans (a b c : Specificity) (h1 : specLe a b = true)
    (h2 : specLe b c = true) : specLe a c = true := by
  obtain ⟨a1, a2, a3⟩ := a
  obtain ⟨b1, b2, b3⟩ := b
  obtain ⟨c1, c2, c3⟩ := c
  simp only [specLe, decide_eq_true_eq] at h1 h2 ⊢
  omega

theorem specLe_total (a b : Specificity) :
    (specLe a b || specLe b a) = true := by
  obtain ⟨a1, a2, a3⟩ := a
  obtain ⟨b1, b2, b3⟩ := b
  simp only [specLe, Bool.or_eq_true, decide_eq_true_eq]
  omega

theorem perm_pair_cases {α : Type} {l : List α} {a b : α}
    (h : List.Perm l [a, b]) : l = [a, b] ∨ l = [b, a] := by
  have hlen : l.length = 2 := by simpa using h.length_eq
  rcases l with _ | ⟨x, _ | ⟨y, _ | ⟨z, t⟩⟩⟩
  · simp at hlen
  · simp at hlen
  · have hx : x ∈ [a, b] := h.mem_iff.mp (by simp)
    rcases (by simpa using hx : x = a ∨ x = b) with rfl | rfl
    · left
      have h2 : List.Perm [y] [b] := h.cons_inv
      have : y = b := by simpa using h2
      rw [this]
    · right
      have hswap : List.Perm [a, x] [x, a] := List.Perm.swap x a []
      have h2 : List.Perm [y] [a] := (h.trans hswap).cons_inv
      have : y = a := by simpa using h2
      rw [this]
  · simp at hlen

/-- C3: cascaded style resolution collects all matched (specificity,
rule) pairs across all stylesheets in order, stable-sorts them ascending
by specificity and inserts declarations in that order, so that later
entries overwrite earlier ones.  Part 1: when exactly two matched rules
declare a property, and the first-collected one's specificity is less
than or equal to the other's (`specLe s₁ s₂` — which covers both the
strict case `s₁ < s₂` and the tie broken by document order, since
`(s₁, r₁)` is collected earlier), the resolved value comes from the
later/higher rule `r₂`.  Part 2: when the first-collected rule has the
*strictly higher* specificity (`specLe s₁ s₂ = false`, i.e. `s₂ < s₁`
lexicographically), it still wins even though the lower-specificity rule
is later in document order — the ascending stable sort moves the
lower-specificity rule in front, so this is exactly the configuration
where sorting (not mere insertion order) decides the cascade.  Part 3:
declarations parsed from the element's inline `style` attribute are
inserted last and override all rule-based declarations. -/
theorem cascade_resolution :
    (∀ (e : ElementData) (sheets : List Stylesheet) (p : String)
        (M₀ M₁ M₂ : List (Specificity × CSSRule))
        (s₁ s₂ : Specificity) (r₁ r₂ : CSSRule) (v₂ : CSSValue),
      collectRules e sheets = M₀ ++ (s₁, r₁) :: (M₁ ++ (s₂, r₂) :: M₂) →
      specLe s₁ s₂ = true →
      (ruleVal p r₁).isSome = true →
      ruleVal p r₂ = some v₂ →
      (∀ x ∈ M₀ ++ (M₁ ++ M₂), ruleVal p x.2 = none) →
      e.attrs "style" = none →
      ((specified_values e sheets).bind fun st => st p) = some v₂) ∧
    (∀ (e : ElementData) (sheets : List Stylesheet) (p : String)
        (M₀ M₁ M₂ : List (Specificity × CSSRule))
        (s₁ s₂ : Specificity) (r₁ r₂ : CSSRule) (v₁ : CSSValue),
      collectRules e sheets = M₀ ++ (s₁, r₁) :: (M₁ ++ (s₂, r₂) :: M₂) →
      specLe s₁ s₂ = false →
      ruleVal p r₁ = some v₁ →
      (ruleVal p r₂).isSome = true →
      (∀ x ∈ M₀ ++ (M₁ ++ M₂), ruleVal p x.2 = none) →
      e.attrs "style" = none →
      ((specified_values e sheets).bind fun st => st p) = some v₁) ∧
    (∀ (e : ElementData) (sheets : List Stylesheet) (p : String)
        (s : String) (ds : List CSSPropValue) (v : CSSValue),
      e.attrs "style" = some s →
      parse_inline_style s = some ds →
      declVal p ds = some v →
      ((specified_values e sheets).bind fun st => st p) = some v) := by
  refine ⟨?_, ?_, ?_⟩
  · intro e sheets p M₀ M₁ M₂ s₁ s₂ r₁ r₂ v₂ hM hle h1 h2 hothers hstyle
    have hPx₁ : (ruleVal p ((s₁, r₁) : Specificity × CSSRule).2).isSome = true := h1
    have hPx₂ : (ruleVal p ((s₂, r₂) : Specificity × CSSRule).2).isSome = true := by
      simp [h2]
    have hM₀ : M₀.filter (fun x => (ruleVal p x.2).isSome) = [] :=
      List.filter_eq_nil_iff.mpr (fun a ha => by
        simp [hothers a (List.mem_append.mpr (Or.inl ha))])
    have hM₁ : M₁.filter (fun x => (ruleVal p x.2).isSome) = [] :=
      List.filter_eq_nil_iff.mpr (fun a ha => by
        simp [hothers a (List.mem_append.mpr
          (Or.inr (List.mem_append.mpr (Or.inl ha))))])
    have hM₂ : M₂.filter (fun x => (ruleVal p x.2).isSome) = [] :=
      List.filter_eq_nil_iff.mpr (fun a ha => by
        simp [hothers a (List.mem_append.mpr
          (Or.inr (List.mem_append.mpr (Or.inr ha))))])
    have hMf : (collectRules e sheets).filter
        (fun x => (ruleVal p x.2).isSome) = [(s₁, r₁), (s₂, r₂)] := by
      rw [hM]
      simp only [List.filter_append, List.filter_cons, hPx₁, hPx₂, hM₀, hM₁,
        hM₂, if_pos rfl]
      simp
    have htrans : ∀ a b c : Specificity × CSSRule,
        specLe a.1 b.1 → specLe b.1 c.1 → specLe a.1 c.1 :=
      fun a b c hab hbc => specLe_trans _ _ _ hab hbc
    have htotal : ∀ a b : Specificity × CSSRule,
        (specLe a.1 b.1 || specLe b.1 a.1) = true :=
      fun a b => specLe_total _ _
    have hperm : List.Perm (sortRules (collectRules e sheets))
        (collectRules e sheets) :=
      List.mergeSort_perm _ _
    have hlenf : ((sortRules (collectRules e sheets)).filter
        (fun x => (ruleVal p x.2).isSome)).length = 2 := by
      rw [(hperm.filter _).length_eq, hMf]
      rfl
    have hsubM : List.Sublist [((s₁, r₁) : Specificity × CSSRule), (s₂, r₂)]
        (collectRules e sheets) := by
      rw [hM]
      have t1 : List.Sublist [((s₂, r₂) : Specificity × CSSRule)]
          ((s₂, r₂) :: M₂) :=
        (List.nil_sublist M₂).cons₂ _
      have t2 : List.Sublist [((s₂, r₂) : Specificity × CSSRule)]
          (M₁ ++ (s₂, r₂) :: M₂) :=
        t1.trans (List.sublist_append_right M₁ _)
      have t3 : List.Sublist [((s₁, r₁) : Specificity × CSSRule), (s₂, r₂)]
          ((s₁, r₁) :: (M₁ ++ (s₂, r₂) :: M₂)) := t2.cons₂ _
      exact t3.trans (List.sublist_append_right M₀ _)
    have hsub : List.Sublist [((s₁, r₁) : Specificity × CSSRule), (s₂, r₂)]
        (sortRules (collectRules e sheets)) :=
      List.pair_sublist_mergeSort htrans htotal hle hsubM
    have hsubf : List.Sublist [((s₁, r₁) : Specificity × CSSRule), (s₂, r₂)]
        ((sortRules (collectRules e sheets)).filter
          (fun x => (ruleVal p x.2).isSome)) := by
      have h := hsub.filter (fun x => (ruleVal p x.2).isSome)
      rwa [show ([((s₁, r₁) : Specificity × CSSRule), (s₂, r₂)]).filter
          (fun x => (ruleVal p x.2).isSome) = [(s₁, r₁), (s₂, r₂)] from by
        simp only [List.filter_cons, hPx₁, hPx₂, if_pos rfl]
        rfl] at h
    have hfeq : (sortRules (collectRules e sheets)).filter
        (fun x => (ruleVal p x.2).isSome) = [(s₁, r₁), (s₂, r₂)] :=
      (hsubf.eq_of_length (by rw [hlenf]; rfl)).symm
    have hlast : lastRuleVal p (sortRules (collectRules e sheets)) =
        some v₂ := by
      rw [lastRuleVal, lastSome_filter, hfeq]
      simp [h2]
    simp only [specified_values, hstyle, Option.bind]
    rw [applyRules_apply, hlast]
  · intro e sheets p M₀ M₁ M₂ s₁ s₂ r₁ r₂ v₁ hM hgt h1 h2 hothers hstyle
    have hPx₁ : (ruleVal p ((s₁, r₁) : Specificity × CSSRule).2).isSome = true := by
      simp [h1]
    have hPx₂ : (ruleVal p ((s₂, r₂) : Specificity × CSSRule).2).isSome = true := h2
    have hM₀ : M₀.filter (fun x => (ruleVal p x.2).isSome) = [] :=
      List.filter_eq_nil_iff.mpr (fun a ha => by
        simp [hothers a (List.mem_append.mpr (Or.inl ha))])
    have hM₁ : M₁.filter (fun x => (ruleVal p x.2).isSome) = [] :=
      List.filter_eq_nil_iff.mpr (fun a ha => by
        simp [hothers a (List.mem_append.mpr
          (Or.inr (List.mem_append.mpr (Or.inl ha))))])
    have hM₂ : M₂.filter (fun x => (ruleVal p x.2).isSome) = [] :=
      List.filter_eq_nil_iff.mpr (fun a ha => by
        simp [hothers a (List.mem_append.mpr
          (Or.inr (List.mem_append.mpr (Or.inr ha))))])
    have hMf : (collectRules e sheets).filter
        (fun x => (ruleVal p x.2).isSome) = [(s₁, r₁), (s₂, r₂)] := by
      rw [hM]
      simp only [List.filter_append, List.filter_cons, hPx₁, hPx₂, hM₀, hM₁,
        hM₂, if_pos rfl]
      simp
    have htrans : ∀ a b c : Specificity × CSSRule,
        specLe a.1 b.1 → specLe b.1 c.1 → specLe a.1 c.1 :=
      fun a b c hab hbc => specLe_trans _ _ _ hab hbc
    have htotal : ∀ a b : Specificity × CSSRule,
        (specLe a.1 b.1 || specLe b.1 a.1) = true :=
      fun a b => specLe_total _ _
    have hperm : List.Perm (sortRules (collectRules e sheets))
        (collectRules e sheets) :=
      List.mergeSort_perm _ _
    have hpairf : List.Perm
        ((sortRules (collectRules e sheets)).filter
          (fun x => (ruleVal p x.2).isSome))
        [(s₁, r₁), (s₂, r₂)] := by
      rw [← hMf]
      exact hperm.filter _
    have hsorted : (sortRules (collectRules e sheets)).Pairwise
        (fun x y : Specificity × CSSRule => specLe x.1 y.1 = true) := by
      rw [sortRules]
      exact List.sorted_mergeSort htrans htotal _
    have hfilterSorted : ((sortRules (collectRules e sheets)).filter
        (fun x => (ruleVal p x.2).isSome)).Pairwise
          (fun x y : Specificity × CSSRule => specLe x.1 y.1 = true) :=
      List.Pairwise.sublist (List.filter_sublist _) hsorted
    rcases perm_pair_cases hpairf with heq | heq
    · exfalso
      rw [heq] at hfilterSorted
      have hrel := (List.pairwise_cons.mp hfilterSorted).1 (s₂, r₂) (by simp)
      rw [hgt] at hrel
      exact Bool.false_ne_true hrel
    · have hlast : lastRuleVal p (sortRules (collectRules e sheets)) =
          some v₁ := by
        rw [lastRuleVal, lastSome_filter, heq]
        simp [h1]
      simp only [specified_values, hstyle, Option.bind]
      rw [applyRules_apply, hlast]
  · intro e sheets p s ds v hs hparse hdv
    simp only [specified_values, hs, hparse, Option.map_some', Option.bind]
    rw [insertDecls_apply, hdv]

/-- Rule `p { color: #ff0000; }` used to witness C3. -/
def ruleTagP : CSSRule :=
  ⟨[⟨[], [], some "p"⟩], [⟨"color", CSSValue.Color 255 0 0 255⟩]⟩

/-- Rule `#x { color: #0000ff; }` used to witness C3. -/
def ruleIdX : CSSRule :=
  ⟨[⟨["x"], [], none⟩], [⟨"color", CSSValue.Color 0 0 255 255⟩]⟩

/-- Stylesheet holding the two C3 witness rules, in document order. -/
def sheetC3 : Stylesheet := ⟨[ruleTagP, ruleIdX]⟩

/-- Element `<p id="x">` used to witness C3. -/
def elemPX : ElementData :=
  ⟨"p", fun k => if k = "id" then some "x" else none⟩

/-- Element `<p style="color:#112233;">` used to witness the inline part
of C3. -/
def elemInline : ElementData :=
  ⟨"p", fun k => if k = "style" then some "color:#112233;" else none⟩

/-- Stylesheet with the same two rules in the opposite document order:
the higher-specificity `#x` rule comes first. -/
def sheetC3r : Stylesheet := ⟨[ruleIdX, ruleTagP]⟩

/-- Witness for `cascade_resolution`: `<p id="x">` against
`p { color: #ff0000; } #x { color: #0000ff; }` resolves `color` from the
higher-specificity `#x` rule; with the document order reversed
(`#x` first, `p` second) the `#x` rule still wins — the stable sort moves
the lower-specificity tag rule in front — and an inline
`style="color:#112233;"` overrides the rule-based colours. -/
theorem cascade_resolution_witness :
    ((specified_values elemPX [sheetC3]).bind fun st => st "color") =
      some (CSSValue.Color 0 0 255 255) ∧
    ((specified_values elemPX [sheetC3r]).bind fun st => st "color") =
      some (CSSValue.Color 0 0 255 255) ∧
    ((specified_values elemInline [sheetC3]).bind fun st => st "color") =
      some (CSSValue.Color 17 34 51 255) := by
  refine ⟨?_, ?_, ?_⟩
  · refine cascade_resolution.1 elemPX [sheetC3] "color" [] [] []
      (0, 0, 1) (1, 0, 0) ruleTagP ruleIdX (CSSValue.Color 0 0 255 255)
      (by decide) (by decide) (by decide) (by decide) ?_ (by decide)
    intro x hx
    simp at hx
  · refine cascade_resolution.2.1 elemPX [sheetC3r] "color" [] [] []
      (1, 0, 0) (0, 0, 1) ruleIdX ruleTagP (CSSValue.Color 0 0 255 255)
      (by decide) (by decide) (by decide) (by decide) ?_ (by decide)
    intro x hx
    simp at hx
  · exact cascade_resolution.2.2 elemInline [sheetC3] "color"
      "color:#112233;" [⟨"color", CSSValue.Color 17 34 51 255⟩]
      (CSSValue.Color 17 34 51 255) (by decide) (by decide) (by decide)

/-- Box type, from `layout.rs` (`BoxType`): each constructor carries the
styled node it refers to (the anonymous ones inherit it). -/
inductive BoxType where
  | Block (s : SNodeCtx)
  | Inline (s : SNodeCtx)
  | AnonymousBlock (s : SNodeCtx)
  | AnonymousInline (text : String) (s : SNodeCtx)
  | Line

/-- Layout-tree node, from `layout.rs` (`LayoutBox`), restricted to the
structure set during box-tree construction (`get_layout_tree_struct` only
assigns the box type and the children; the box geometry stays at its
default until layout proper). -/
inductive LayoutBox where
  | mk (box_type : BoxType) (children : List LayoutBox)

/-- Box-type accessor. -/
def LayoutBox.box_type : LayoutBox → BoxType
  | .mk t _ => t

/-- Children accessor. -/
def LayoutBox.childBoxes : LayoutBox → List LayoutBox
  | .mk _ c => c

/-- Root box type chosen for a styled node by `get_layout_tree_struct`:
`display: block` gives a `Block` box, `display: inline` gives an
`AnonymousInline` for text nodes and an `Inline` box otherwise, and
`display: none` panics for the root (`none` here) and is skipped for
children before recursing. -/
def boxTypeOf (st : STree) : Option BoxType :=
  match st.ctx.get_display with
  | .Block => some (.Block st.ctx)
  | .Inline =>
    match st.node_type with
    | .text content => some (.AnonymousInline content st.ctx)
    | _ => some (.Inline st.ctx)
  | .None => none

/-- Inline-typed boxes (`Inline` or `AnonymousInline`), the ones routed
through `get_inline_container`. -/
def isInlineLevel : LayoutBox → Bool
  | .mk (.Inline _) _ => true
  | .mk (.AnonymousInline _ _) _ => true
  | _ => false

/-- Anonymous-block test. -/
def isAnonBlock : LayoutBox → Bool
  | .mk (.AnonymousBlock _) _ => true
  | _ => false

/-- Functional rendering of `LayoutBox::get_inline_container` followed by
the `push` of the inline-typed child `c` (`layout.rs` lines 152–168 and
520): an `Inline` or `AnonymousBlock` parent receives the child directly;
a `Block` parent reuses its last child when that is already an
`AnonymousBlock`, creating a fresh wrapper (carrying the block's styled
node) otherwise; any other parent receives the child directly. -/
def push_inline (self_type : BoxType) (children : List LayoutBox)
    (c : LayoutBox) : List LayoutBox :=
  match self_type with
  | .Inline _ => children ++ [c]
  | .AnonymousBlock _ => children ++ [c]
  | .Block s =>
    match children.getLast? with
    | some (.mk (.AnonymousBlock s') ws) =>
      children.dropLast ++ [.mk (.AnonymousBlock s') (ws ++ [c])]
    | _ => children ++ [.mk (.AnonymousBlock s) [c]]
  | _ => children ++ [c]

mutual

/-- Box-tree construction, from `layout.rs` (`get_layout_tree_struct`):
pick the root's box type from its display (panic — `none` — on `none`),
then fold the styled children in order: block children are appended
directly, inline children go through the inline container, `display:
none` children are skipped. -/
def get_layout_tree_struct (st : STree) : Option LayoutBox :=
  match st with
  | .mk nt ctx cs =>
    match boxTypeOf (.mk nt ctx cs) with
    | none => none
    | some t => some (.mk t (build_layout_children t [] cs))

/-- Child fold of `get_layout_tree_struct`.  In the `Block`/`Inline`
branches the recursive construction always returns `some` (the child's
display is not `none`); the `none` fallback is unreachable. -/
def build_layout_children (t : BoxType) (acc : List LayoutBox)
    (l : List STree) : List LayoutBox :=
  match l with
  | [] => acc
  | c :: cs =>
    match c.ctx.get_display with
    | .Block =>
      match get_layout_tree_struct c with
      | some b => build_layout_children t (acc ++ [b]) cs
      | none => build_layout_children t acc cs
    | .Inline =>
      match get_layout_tree_struct c with
      | some b => build_layout_children t (push_inline t acc b) cs
      | none => build_layout_children t acc cs
    | .None => build_layout_children t acc cs

end

/-- Boxes produced by a list of styled children (skipping `display:
none`). -/
def childLayoutBoxes (l : List STree) : List LayoutBox :=
  l.filterMap get_layout_tree_struct

/-- Specification-side prepend into a run grouping: an inline-level box
joins the leading `AnonymousBlock` wrapper when one is next, otherwise a
fresh wrapper is opened for it. -/
def segInto (ctx : SNodeCtx) (b : LayoutBox) (rest : List LayoutBox) :
    List LayoutBox :=
  match rest with
  | .mk (.AnonymousBlock c) ws :: tail => .mk (.AnonymousBlock c) (b :: ws) :: tail
  | _ => .mk (.AnonymousBlock ctx) [b] :: rest

/-- Specification-side run grouping of a block's child boxes, following
the claim's words: block-level children stay in place and each maximal
run of consecutive inline-level children is packed into exactly one
`AnonymousBlock` wrapper carrying the block's styled node. -/
def seg (ctx : SNodeCtx) : List LayoutBox → List LayoutBox
  | [] => []
  | b :: bs => if isInlineLevel b then segInto ctx b (seg ctx bs) else b :: seg ctx bs

/-- Append-style merge of a fold prefix with a run grouping of the
remaining boxes: when the prefix ends in a wrapper and the grouping
starts with one, the two wrappers are one and the same run. -/
def mergeSegs (acc s : List LayoutBox) : List LayoutBox :=
  match s with
  | .mk (.AnonymousBlock _) ws' :: rest =>
    match acc.getLast? with
    | some (.mk (.AnonymousBlock c) ws) =>
      acc.dropLast ++ .mk (.AnonymousBlock c) (ws ++ ws') :: rest
    | _ => acc ++ s
  | _ => acc ++ s

theorem get_layout_tree_struct_not_anon (st : STree) (b : LayoutBox)
    (h : get_layout_tree_struct st = some b) : isAnonBlock b = false := by
  cases st with
  | mk nt ctx cs =>
    simp only [get_layout_tree_struct, boxTypeOf, STree.ctx, STree.node_type]
      at h
    cases hd : SNodeCtx.get_display ctx with
    | Block =>
      rw [hd] at h
      injection h with h1
      rw [← h1]
      rfl
    | Inline =>
      rw [hd] at h
      cases nt <;> (injection h with h1; rw [← h1]; rfl)
    | None =>
      rw [hd] at h
      cases h

theorem childLayoutBoxes_not_anon (l : List STree) (b : LayoutBox)
    (hb : b ∈ childLayoutBoxes l) : isAnonBlock b = false := by
  rw [childLayoutBoxes] at hb
  obtain ⟨st, _, hsome⟩ := List.mem_filterMap.mp hb
  exact get_layout_tree_struct_not_anon st b hsome

theorem seg_head_payload (ctx : SNodeCtx) (l : List LayoutBox)
    (hl : ∀ b ∈ l, isAnonBlock b = false) :
    ∀ (c : SNodeCtx) (ws tail : List LayoutBox),
      seg ctx l = LayoutBox.mk (.AnonymousBlock c) ws :: tail → c = ctx := by
  induction l with
  | nil =>
    intro c ws tail h
    simp [seg] at h
  | cons b bs ih =>
    intro c ws tail h
    rw [seg] at h
    by_cases hb : isInlineLevel b = true
    · rw [if_pos hb] at h
      cases hsb : seg ctx bs with
      | nil =>
        rw [hsb] at h
        simp only [segInto] at h
        injection h with h1 _
        injection h1 with h2 _
        injection h2 with h3
        exact h3.symm
      | cons hd tl =>
        rw [hsb] at h
        rcases hd with ⟨ht, hc⟩
        cases ht with
        | AnonymousBlock c₀ =>
          simp only [segInto] at h
          injection h with h1 _
          injection h1 with h2 _
          injection h2 with h3
          rw [← h3]
          exact ih (fun b' hb' => hl b' (List.mem_cons_of_mem b hb')) c₀ hc tl
            hsb
        | Block p =>
          simp only [segInto] at h
          injection h with h1 _
          injection h1 with h2 _
          injection h2 with h3
          exact h3.symm
        | Inline p =>
          simp only [segInto] at h
          injection h with h1 _
          injection h1 with h2 _
          injection h2 with h3
          exact h3.symm
        | AnonymousInline s p =>
          simp only [segInto] at h
          injection h with h1 _
          injection h1 with h2 _
          injection h2 with h3
          exact h3.symm
        | Line =>
          simp only [segInto] at h
          injection h with h1 _
          injection h1 with h2 _
          injection h2 with h3
          exact h3.symm
    · rw [if_neg hb] at h
      injection h with h1 _
      have hbmem := hl b (List.mem_cons_self b bs)
      rw [h1] at hbmem
      simp [isAnonBlock] at hbmem

theorem mergeSegs_nil_right (acc : List LayoutBox) : mergeSegs acc [] = acc := by
  simp [mergeSegs]

theorem mergeSegs_nil_left (s : List LayoutBox) : mergeSegs [] s = s := by
  rcases s with _ | ⟨⟨bt, bc⟩, rest⟩
  · rfl
  · cases bt <;> simp [mergeSegs]

theorem mergeSegs_cons_block (acc s : List LayoutBox) (b : LayoutBox)
    (hb : isAnonBlock b = false) :
    mergeSegs acc (b :: s) = mergeSegs (acc ++ [b]) s := by
  rcases b with ⟨bt, bc⟩
  cases bt with
  | AnonymousBlock p => simp [isAnonBlock] at hb
  | Block p =>
    rcases s with _ | ⟨⟨st', sc⟩, rest⟩
    · simp [mergeSegs]
    · cases st' <;> simp [mergeSegs, List.getLast?_concat]
  | Inline p =>
    rcases s with _ | ⟨⟨st', sc⟩, rest⟩
    · simp [mergeSegs]
    · cases st' <;> simp [mergeSegs, List.getLast?_concat]
  | AnonymousInline t p =>
    rcases s with _ | ⟨⟨st', sc⟩, rest⟩
    · simp [mergeSegs]
    · cases st' <;> simp [mergeSegs, List.getLast?_concat]
  | Line =>
    rcases s with _ | ⟨⟨st', sc⟩, rest⟩
    · simp [mergeSegs]
    · cases st' <;> simp [mergeSegs, List.getLast?_concat]

theorem mergeSegs_push_inline (ctx : SNodeCtx) (acc s : List LayoutBox)
    (b : LayoutBox)
    (hs : ∀ (c : SNodeCtx) (ws tail : List LayoutBox),
      s = LayoutBox.mk (.AnonymousBlock c) ws :: tail → c = ctx) :
    mergeSegs acc (segInto ctx b s) =
      mergeSegs (push_inline (.Block ctx) acc b) s := by
  rcases hsl : s with _ | ⟨⟨st', sc⟩, rest⟩
  · -- s = []
    cases hacc : acc.getLast? with
    | none =>
      have hane : acc = [] := by
        cases acc with
        | nil => rfl
        | cons x xs => simp [List.getLast?_eq_getLast] at hacc
      subst hane
      simp [segInto, mergeSegs, push_inline]
    | some la =>
      rcases la with ⟨lat, lac⟩
      cases lat <;>
        simp [segInto, mergeSegs, push_inline, hacc, List.getLast?_concat,
          List.dropLast_concat]
  · cases st' with
    | AnonymousBlock c' =>
      have hc' : c' = ctx := hs c' sc rest hsl
      subst hc'
      cases hacc : acc.getLast? with
      | none =>
        have hane : acc = [] := by
          cases acc with
          | nil => rfl
          | cons x xs => simp [List.getLast?_eq_getLast] at hacc
        subst hane
        simp [segInto, mergeSegs, push_inline]
      | some la =>
        rcases la with ⟨lat, lac⟩
        cases lat <;>
          simp [segInto, mergeSegs, push_inline, hacc, List.getLast?_concat,
            List.dropLast_concat]
    | Block p =>
      cases hacc : acc.getLast? with
      | none =>
        have hane : acc = [] := by
          cases acc with
          | nil => rfl
          | cons x xs => simp [List.getLast?_eq_getLast] at hacc
        subst hane
        simp [segInto, mergeSegs, push_inline]
      | some la =>
        rcases la with ⟨lat, lac⟩
        cases lat <;>
          simp [segInto, mergeSegs, push_inline, hacc, List.getLast?_concat,
            List.dropLast_concat]
    | Inline p =>
      cases hacc : acc.getLast? with
      | none =>
        have hane : acc = [] := by
          cases acc with
          | nil => rfl
          | cons x xs => simp [List.getLast?_eq_getLast] at hacc
        subst hane
        simp [segInto, mergeSegs, push_inline]
      | some la =>
        rcases la with ⟨lat, lac⟩
        cases lat <;>
          simp [segInto, mergeSegs, push_inline, hacc, List.getLast?_concat,
            List.dropLast_concat]
    | AnonymousInline t p =>
      cases hacc : acc.getLast? with
      | none =>
        have hane : acc = [] := by
          cases acc with
          | nil => rfl
          | cons x xs => simp [List.getLast?_eq_getLast] at hacc
        subst hane
        simp [segInto, mergeSegs, push_inline]
      | some la =>
        rcases la with ⟨lat, lac⟩
        cases lat <;>
          simp [segInto, mergeSegs, push_inline, hacc, List.getLast?_concat,
            List.dropLast_concat]
    | Line =>
      cases hacc : acc.getLast? with
      | none =>
        have hane : acc = [] := by
          cases acc with
          | nil => rfl
          | cons x xs => simp [List.getLast?_eq_getLast] at hacc
        subst hane
        simp [segInto, mergeSegs, push_inline]
      | some la =>
        rcases la with ⟨lat, lac⟩
        cases lat <;>
          simp [segInto, mergeSegs, push_inline, hacc, List.getLast?_concat,
            List.dropLast_concat]

theorem build_layout_children_eq (ctx : SNodeCtx) (l : List STree) :
    ∀ acc, build_layout_children (.Block ctx) acc l =
      mergeSegs acc (seg ctx (childLayoutBoxes l)) := by
  induction l with
  | nil =>
    intro acc
    simp [build_layout_children, childLayoutBoxes, seg, mergeSegs_nil_right]
  | cons c cs ih =>
    intro acc
    cases hd : c.ctx.get_display with
    | None =>
      have hnone : get_layout_tree_struct c = none := by
        cases c with
        | mk nt cctx ccs =>
          simp only [STree.ctx] at hd
          simp [get_layout_tree_struct, boxTypeOf, STree.ctx, hd]
      simp only [build_layout_children, hd]
      rw [ih acc]
      simp [childLayoutBoxes, List.filterMap_cons, hnone]
    | Block =>
      have hsome : get_layout_tree_struct c =
          some (.mk (.Block c.ctx)
            (build_layout_children (.Block c.ctx) [] c.children)) := by
        cases c with
        | mk nt cctx ccs =>
          simp only [STree.ctx] at hd
          simp [get_layout_tree_struct, boxTypeOf, STree.ctx, STree.children,
            hd]
      simp only [build_layout_children, hd, hsome]
      rw [ih]
      have hstep : childLayoutBoxes (c :: cs) =
          LayoutBox.mk (.Block c.ctx)
            (build_layout_children (.Block c.ctx) [] c.children) ::
          childLayoutBoxes cs := by
        simp [childLayoutBoxes, List.filterMap_cons, hsome]
      rw [hstep]
      rw [show seg ctx (LayoutBox.mk (.Block c.ctx)
          (build_layout_children (.Block c.ctx) [] c.children) ::
            childLayoutBoxes cs) =
        LayoutBox.mk (.Block c.ctx)
          (build_layout_children (.Block c.ctx) [] c.children) ::
          seg ctx (childLayoutBoxes cs) from by
        rw [seg, if_neg (by simp [isInlineLevel])]]
      rw [mergeSegs_cons_block _ _ _ (by simp [isAnonBlock])]
    | Inline =>
      have hsome : ∃ b, get_layout_tree_struct c = some b ∧
          isInlineLevel b = true := by
        cases c with
        | mk nt cctx ccs =>
          simp only [STree.ctx] at hd
          cases nt with
          | text s =>
            exact ⟨.mk (.AnonymousInline s cctx)
              (build_layout_children (.AnonymousInline s cctx) [] ccs),
              by simp [get_layout_tree_struct, boxTypeOf, STree.ctx,
                STree.node_type, hd], rfl⟩
          | element e =>
            exact ⟨.mk (.Inline cctx)
              (build_layout_children (.Inline cctx) [] ccs),
              by simp [get_layout_tree_struct, boxTypeOf, STree.ctx,
                STree.node_type, hd], rfl⟩
          | comment s =>
            exact ⟨.mk (.Inline cctx)
              (build_layout_children (.Inline cctx) [] ccs),
              by simp [get_layout_tree_struct, boxTypeOf, STree.ctx,
                STree.node_type, hd], rfl⟩
          | styleNode a at' inner =>
            exact ⟨.mk (.Inline cctx)
              (build_layout_children (.Inline cctx) [] ccs),
              by simp [get_layout_tree_struct, boxTypeOf, STree.ctx,
                STree.node_type, hd], rfl⟩
      obtain ⟨b, hsome, hbi⟩ := hsome
      simp only [build_layout_children, hd, hsome]
      rw [ih]
      have hstep : childLayoutBoxes (c :: cs) = b :: childLayoutBoxes cs := by
        simp [childLayoutBoxes, List.filterMap_cons, hsome]
      rw [hstep]
      rw [show seg ctx (b :: childLayoutBoxes cs) =
        segInto ctx b (seg ctx (childLayoutBoxes cs))
        from by rw [seg, if_pos hbi]]
      rw [mergeSegs_push_inline ctx acc _ b
        (seg_head_payload ctx _ (fun b' hb' =>
          childLayoutBoxes_not_anon cs b' hb'))]

/-- C4: after box-tree construction, a `Block` box's children are exactly
the run grouping of its styled children's boxes: block-level children
stay in place and each maximal run of consecutive `Inline`/
`AnonymousInline` children shares exactly one `AnonymousBlock` wrapper
(created on demand when the first inline child of the run arrives, reused
while it is still the last child, and not reused once a `Block` child has
ended the run); hence no inline-typed box is a direct child of a `Block`
box.  Every `Block` box in a constructed tree is itself the construction
of a styled subtree, so the statement covers all levels. -/
theorem block_inline_wrapping (st : STree)
    (hblock : st.ctx.get_display = .Block) :
    get_layout_tree_struct st =
      some (.mk (.Block st.ctx) (seg st.ctx (childLayoutBoxes st.children))) := by
  cases st with
  | mk nt ctx cs =>
    simp only [STree.ctx, STree.children] at hblock ⊢
    simp only [get_layout_tree_struct, boxTypeOf, STree.ctx, hblock]
    rw [build_layout_children_eq ctx cs [], mergeSegs_nil_left]

/-- Styled-node context with `display: block`. -/
def ctxBlock : SNodeCtx :=
  ⟨fun k => if k = "display" then some (.Keyword "block") else none, []⟩

/-- Styled-node context with no declarations (`display` defaults to
inline). -/
def ctxInline : SNodeCtx := ⟨fun _ => none, []⟩

/-- Styled text node used in the C4 witness. -/
def stText (s : String) : STree := .mk (.text s) ctxInline []

/-- Styled `<span>a</span>`. -/
def stSpanA : STree := .mk (.element ⟨"span", fun _ => none⟩) ctxInline
  [stText "a"]

/-- Styled `<p>b</p>` with block display. -/
def stP : STree := .mk (.element ⟨"p", fun _ => none⟩) ctxBlock [stText "b"]

/-- Styled `<span>c</span>`. -/
def stSpanC : STree := .mk (.element ⟨"span", fun _ => none⟩) ctxInline
  [stText "c"]

/-- Styled `<div><span>a</span><p>b</p><span>c</span></div>` with block
display on the div. -/
def stDiv : STree := .mk (.element ⟨"div", fun _ => none⟩) ctxBlock
  [stSpanA, stP, stSpanC]

/-- Witness for `block_inline_wrapping`: the div's box children are
`AnonymousBlock[Inline(span a)]`, `Block(p)` (whose own text is wrapped in
its own anonymous block), `AnonymousBlock[Inline(span c)]` — the block
child `p` ends the first run, so the second span gets a fresh wrapper. -/
theorem block_inline_wrapping_witness :
    get_layout_tree_struct stDiv =
      some (.mk (.Block ctxBlock)
        [.mk (.AnonymousBlock ctxBlock)
          [.mk (.Inline ctxInline) [.mk (.AnonymousInline "a" ctxInline) []]],
         .mk (.Block ctxBlock)
          [.mk (.AnonymousBlock ctxBlock)
            [.mk (.AnonymousInline "b" ctxInline) []]],
         .mk (.AnonymousBlock ctxBlock)
          [.mk (.Inline ctxInline) [.mk (.AnonymousInline "c" ctxInline) []]]]) := by
  rw [block_inline_wrapping stDiv (by rfl)]
  rfl

end ToyBrowser
